import Mathlib

/-!
Verification of the CSS merge core of `cssReplacer.py` (repository
kasiro/SleepTracker).

The program reconciles an external stylesheet with the inline `<style>`
block of an HTML document.  Its core consists of

* a structured rule model (style rules, `@import`, `@keyframes`,
  `@media`, and a fallback for other at-rules),
* an identity-key function `get_rule_key`,
* formatters `format_css_rule` / `format_at_rule`,
* the merge-and-render loop inside `merge_inline_with_external`
  (lines 131-166 of the source).

The definitions below are a shallow embedding of that code, translated
clause by clause from the Python source.  The third-party CSS parser
(`cssutils`) is not part of the repository; where a claim needs it, it
is modelled from the specification (see `parseRulesF` below).

Note on a source subtlety that matters for the merge theorems: in the
Python source the loop `for key, rule in inline_list:` (line 154) is
indented one level deeper than the loop `for key, rule in ext_list:`
(line 136), because the guard `if new_from_inline > 0:` above it was
commented out without re-indenting the block.  The inline loop therefore
runs **inside** the external loop, once per emitted external rule.  The
embedding `mergeLoop` reproduces this faithfully.
-/

/-- Python whitespace as used by `str.strip()`: space, tab, newline,
carriage return, vertical tab, form feed. -/
def isPyWS (c : Char) : Bool :=
  c == ' ' || c == '\t' || c == '\n' || c == '\r' || c == '\u000B' || c == '\u000C'

/-- Remove leading and trailing Python whitespace from a character list. -/
def pyStripList (l : List Char) : List Char :=
  ((l.dropWhile isPyWS).reverse.dropWhile isPyWS).reverse

/-- Embedding of Python `str.strip()`. -/
def pyStrip (s : String) : String := String.mk (pyStripList s.data)

/-- Embedding of Python `str.lower()` (character-wise lowering). -/
def pyLower (s : String) : String := String.mk (s.data.map Char.toLower)

/-- Embedding of Python `sep.join(list)`. -/
def joinS (sep : String) : List String → String
  | [] => ""
  | [x] => x
  | x :: y :: t => x ++ sep ++ joinS sep (y :: t)

/-- Python `"\n".join(lines)`, the joiner used for the final output. -/
def joinNL (lines : List String) : String := joinS "\n" lines

/-- Embedding of Python `sorted` on lists of strings (lexicographic
order on code points; any correct sort agrees on strings since the
order is total and antisymmetric). -/
def sortStr (l : List String) : List String :=
  List.insertionSort (fun a b : String => a ≤ b) l

/-- Embedding of Python substring test `pat in s`. -/
def strContains (s pat : String) : Bool := decide (pat.data <:+: s.data)

/-- One CSS declaration: (property name, value). -/
abbrev Decl := String × String

/-- One keyframe block inside `@keyframes`: (keyText, declarations). -/
abbrev Frame := String × List Decl

/-- A node nested inside an `@media` rule.  `cssutils` exposes arbitrary
nested constructs; the source keeps only those with a `selectorText`
attribute (style rules) and skips the rest. -/
inductive MediaInner where
  | styleInner (selectorText : String) (decls : List Decl)
  | otherInner (raw : String)
deriving DecidableEq

/-- The rule model of §3 of the design: the five variants the source
distinguishes via `rule.type` (STYLE_RULE, IMPORT_RULE, KEYFRAMES_RULE,
MEDIA_RULE) plus the catch-all. -/
inductive RuleNode where
  | styleRule (selectorText : String) (decls : List Decl)
  | importRule (href : String)
  | keyframesRule (name : String) (frames : List Frame)
  | mediaRule (mediaText : String) (inner : List MediaInner)
  | otherRule (cssText : String)
deriving DecidableEq

/-- One rendered declaration line: `f"{indent}{p.name}: {p.value};"`. -/
def declLine (indent : String) (d : Decl) : String :=
  indent ++ d.1 ++ ": " ++ d.2 ++ ";"

/-- Embedding of `format_css_rule` (source lines 15-21): strips the
selector, renders `sel \x7b\x7d` when there are no declarations, otherwise
one declaration per line between braces. -/
def format_css_rule (selectorText : String) (style : List Decl)
    (indent : String := "    ") : String :=
  let sel := pyStrip selectorText
  let props := style.map (declLine indent)
  if props.isEmpty then sel ++ " \x7b\x7d"
  else sel ++ " \x7b\n" ++ joinNL props ++ "\n\x7d"

/-- One rendered keyframe block from `format_at_rule` (source line 32):
`f"{indent}{keyframe.keyText} \x7b\n" + lines + f"\n{indent}\x7d"` with the
declaration lines indented by `indent * 2`. -/
def frameBlock (indent : String) (f : Frame) : String :=
  indent ++ f.1 ++ " \x7b\n" ++ joinNL (f.2.map (declLine (indent ++ indent))) ++
    "\n" ++ indent ++ "\x7d"

/-- Embedding of `format_at_rule` (source lines 24-47).  The style-rule
case cannot be reached from the merge dispatch (which sends style rules
to `format_css_rule`); it is included only to make the match total. -/
def format_at_rule (rule : RuleNode) (indent : String := "    ") : String :=
  match rule with
  | .importRule href => "@import url(\x27" ++ href ++ "\x27);"
  | .keyframesRule name frames =>
      "@keyframes " ++ name ++ " \x7b\n" ++ joinNL (frames.map (frameBlock indent)) ++ "\n\x7d"
  | .mediaRule query inner =>
      "@media " ++ query ++ " \x7b\n" ++
        joinNL (inner.filterMap (fun r => match r with
          | .styleInner sel ds => some (indent ++ format_css_rule sel ds (indent ++ indent))
          | .otherInner _ => none)) ++ "\n\x7d"
  | .otherRule ruleText => if strContains ruleText "@charset" then "" else ruleText
  | .styleRule sel ds => format_css_rule sel ds indent

/-- Declaration signature `f"{p.name}:{p.value}"` used by `get_rule_key`. -/
def pvSig (d : Decl) : String := d.1 ++ ":" ++ d.2

/-- Frame signature `f"{keyframe.keyText}:{';'.join(sorted(frame_props))}"`
(source line 61). -/
def frameSig (f : Frame) : String :=
  f.1 ++ ":" ++ joinS ";" (sortStr (f.2.map pvSig))

/-- Inner signature of a media child (source line 70); children without a
`selectorText` are skipped. -/
def innerSig (r : MediaInner) : Option String :=
  match r with
  | .styleInner sel ds => some (sel ++ ":" ++ joinS ";" (sortStr (ds.map pvSig)))
  | .otherInner _ => none

/-- Embedding of `get_rule_key` (source lines 49-74). -/
def get_rule_key (rule : RuleNode) : String :=
  match rule with
  | .styleRule sel _ => "style:" ++ pyLower (pyStrip sel)
  | .importRule href => "import:" ++ href
  | .keyframesRule name frames =>
      "keyframes:" ++ name ++ ":" ++ joinS ":" (sortStr (frames.map frameSig))
  | .mediaRule query inner =>
      "media:" ++ query ++ ":" ++ joinS ":" (sortStr (inner.filterMap innerSig))
  | .otherRule cssText => "other:" ++ cssText

/-- Embedding of `load_css_rules` (source lines 77-93).  The call to the
third-party `cssutils.parseString` is modelled as an `Except` value: the
`try/except` of the source turns a parse failure into an empty sheet.
The function returns the ordered `rules_list` of `(key, rule)` pairs;
the dictionary also built there is used only for console counts. -/
def load_css_rules (parsed : Except String (List RuleNode)) : List (String × RuleNode) :=
  match parsed with
  | .error _ => []
  | .ok rules => rules.map (fun r => (get_rule_key r, r))

/-- Pair every rule with its identity key, as `load_css_rules` does on a
successful parse. -/
def keyed (rules : List RuleNode) : List (String × RuleNode) :=
  rules.map (fun r => (get_rule_key r, r))

/-- The per-rule dispatch of the merge loop (source lines 140-145 and
156-161): imports and the catch-all go to `format_at_rule`, style rules
to `format_css_rule`. -/
def formatRule (rule : RuleNode) : String :=
  match rule with
  | .importRule _ => format_at_rule rule
  | .styleRule sel ds => format_css_rule sel ds
  | _ => format_at_rule rule "    "

/-- The inner loop over `inline_list` (source lines 154-163): emit every
inline rule whose key is not yet processed, marking keys as it goes.
Returns the emitted rules and the grown processed set. -/
def emitInlineLoop : List (String × RuleNode) → List String → List RuleNode × List String
  | [], processed => ([], processed)
  | (k, r) :: rest, processed =>
    if k ∈ processed then emitInlineLoop rest processed
    else
      (r :: (emitInlineLoop rest (k :: processed)).1, (emitInlineLoop rest (k :: processed)).2)

/-- The outer loop over `ext_list` (source lines 136-163).  Because the
inline loop is indented inside the external loop in the source (the
guard above it was commented out), each non-skipped external rule is
followed by a full pass over `inline_list`. -/
def mergeLoop : List (String × RuleNode) → List (String × RuleNode) → List String → List RuleNode
  | [], _, _ => []
  | (k, r) :: rest, inl, processed =>
    if k ∈ processed then mergeLoop rest inl processed
    else
      r :: ((emitInlineLoop inl (k :: processed)).1 ++
        mergeLoop rest inl (emitInlineLoop inl (k :: processed)).2)

/-- The sequence of rules whose formatted text is appended to `lines`
by `merge_inline_with_external`, in order. -/
def mergeRules (extList inlList : List (String × RuleNode)) : List RuleNode :=
  mergeLoop extList inlList []

/-- Merge starting from plain rule lists (keys computed as in
`load_css_rules`). -/
def mergeNodes (ext inl : List RuleNode) : List RuleNode :=
  mergeRules (keyed ext) (keyed inl)

/-- The `lines` list accumulated by the merge (each emitted rule,
formatted by the dispatch). -/
def mergedLines (extList inlList : List (String × RuleNode)) : List String :=
  (mergeRules extList inlList).map formatRule

/-- `final_css = "\n".join(lines).strip()` (source line 166). -/
def finalCss (extList inlList : List (String × RuleNode)) : String :=
  pyStrip (joinNL (mergedLines extList inlList))

/-- Final CSS text starting from plain rule lists. -/
def finalCssNodes (ext inl : List RuleNode) : String :=
  finalCss (keyed ext) (keyed inl)

/-- Two frames are equivalent when they have the same keyText and their
declaration lists are permutations of each other. -/
def FrameEquiv (f g : Frame) : Prop := f.1 = g.1 ∧ f.2.Perm g.2

/-- Two media children are equivalent when they are equal up to a
permutation of the declarations of a style child. -/
def InnerEquiv : MediaInner → MediaInner → Prop
  | .styleInner s ds, .styleInner s' ds' => s = s' ∧ ds.Perm ds'
  | .otherInner t, .otherInner t' => t = t'
  | _, _ => False

/-- Character list of the banned `@charset` marker. -/
def chPat : List Char := "@charset".data

/-- A character list that does not contain `@charset` as a contiguous
substring. -/
abbrev NoCh (l : List Char) : Prop := ¬ chPat <:+: l

/-- A string whose text does not contain `@charset`. -/
abbrev NoChS (s : String) : Prop := NoCh s.data

/-- A declaration whose property name and value contain no `@charset`. -/
abbrev declClean (d : Decl) : Prop := NoChS d.1 ∧ NoChS d.2

/-- Cleanliness of a media child: a style child must have `@charset`-free
selector and declarations; other children are unconstrained (they are
never rendered). -/
def innerClean (i : MediaInner) : Prop :=
  match i with
  | .styleInner sel ds => NoChS sel ∧ ∀ d ∈ ds, declClean d
  | .otherInner _ => True

/-- Cleanliness of a rule: every textual field of a non-fallback rule is
`@charset`-free.  A fallback `otherRule` needs no condition — the
formatter itself suppresses it when it contains `@charset`. -/
def ruleClean (r : RuleNode) : Prop :=
  match r with
  | .styleRule sel ds => NoChS sel ∧ ∀ d ∈ ds, declClean d
  | .importRule href => NoChS href
  | .keyframesRule name frames => NoChS name ∧ ∀ f ∈ frames, NoChS f.1 ∧ ∀ d ∈ f.2, declClean d
  | .mediaRule q inner => NoChS q ∧ ∀ i ∈ inner, innerClean i
  | .otherRule _ => True

instance : DecidablePred innerClean := fun i =>
  match i with
  | .styleInner sel ds => inferInstanceAs (Decidable (NoChS sel ∧ ∀ d ∈ ds, declClean d))
  | .otherInner _ => inferInstanceAs (Decidable True)

instance : DecidablePred ruleClean := fun r =>
  match r with
  | .styleRule sel ds => inferInstanceAs (Decidable (NoChS sel ∧ ∀ d ∈ ds, declClean d))
  | .importRule href => inferInstanceAs (Decidable (NoChS href))
  | .keyframesRule name frames =>
      inferInstanceAs (Decidable (NoChS name ∧ ∀ f ∈ frames, NoChS f.1 ∧ ∀ d ∈ f.2, declClean d))
  | .mediaRule q inner => inferInstanceAs (Decidable (NoChS q ∧ ∀ i ∈ inner, innerClean i))
  | .otherRule _ => inferInstanceAs (Decidable True)

/-- Modelled from the spec (§4.3): the line list of one rendered style
rule — a `pre`-indented selector line opening a brace, one declaration
line per declaration at `declInd`, and a closing-brace line at column 0
(per the amended claim; the source's f-string prefixes only the first
line of the inner rule, so the closing brace is not indented).  With no
declarations the whole rule is the single line `pre ++ sel ++ " \x7b\x7d"`. -/
def specStyleLines (pre declInd : String) (sel : String) (ds : List Decl) : List String :=
  if ds.isEmpty then [pre ++ pyStrip sel ++ " \x7b\x7d"]
  else (pre ++ pyStrip sel ++ " \x7b") ::
    (ds.map (fun d => declInd ++ d.1 ++ ": " ++ d.2 ++ ";") ++ ["\x7d"])

/-- Modelled from the spec (§4.3): a top-level style rule rendered line
by line — selector line, declarations at four spaces, closing brace. -/
def specFormatStyle (sel : String) (ds : List Decl) : String :=
  joinNL (specStyleLines "" "    " sel ds)

/-- The rendered blocks of the style children of a media rule, selector
lines at four spaces and declarations at eight. -/
def mediaStyleBlocks (inner : List MediaInner) : List String :=
  inner.filterMap (fun i => match i with
    | .styleInner s ds => some (joinNL (specStyleLines "    " "        " s ds))
    | .otherInner _ => none)

/-- Modelled from the spec (§4.3, amended): a media rule rendered line by
line — header, the style-children blocks, and the final unindented
closing brace. -/
def specFormatMedia (q : String) (inner : List MediaInner) : String :=
  joinNL (("@media " ++ q ++ " \x7b") :: (mediaStyleBlocks inner ++ ["\x7d"]))

/-- Build a string from its character list. -/
def strOf (l : List Char) : String := String.mk l

/-- Split a character list at the first occurrence of `c`: the part
before it, and the rest beginning with `c` (or `[]` when `c` is
absent). -/
def spanUntil (c : Char) (l : List Char) : List Char × List Char :=
  (l.takeWhile (fun x => x != c), l.dropWhile (fun x => x != c))

/-- Split a character list on every occurrence of `c` (Python
`str.split`); always returns at least one chunk. -/
def splitOnChar (c : Char) : List Char → List (List Char)
  | [] => [[]]
  | x :: t =>
    match splitOnChar c t with
    | [] => [[x]]
    | g :: gs => if x = c then [] :: g :: gs else (x :: g) :: gs

/-- Scan to the closing brace matching depth `d`, returning the content
before it and the rest after it; `none` when unbalanced. -/
def splitBlock (d : Nat) : List Char → Option (List Char × List Char)
  | [] => none
  | c :: t =>
    if c = '\x7d' then
      if d = 0 then some ([], t)
      else Option.map (fun p => (c :: p.1, p.2)) (splitBlock (d - 1) t)
    else if c = '\x7b' then
      Option.map (fun p => (c :: p.1, p.2)) (splitBlock (d + 1) t)
    else
      Option.map (fun p => (c :: p.1, p.2)) (splitBlock d t)

/-- Modelled from the spec (§4.1): parse one `name: value` declaration
chunk — strip it, split at the first colon, strip both sides; chunks
without a colon (including blank ones) are dropped. -/
def parseDeclChunk (chunk : List Char) : Option Decl :=
  let p := spanUntil ':' (pyStripList chunk)
  if p.2 = [] then none
  else some (strOf (pyStripList p.1), strOf (pyStripList p.2.tail))

/-- Modelled from the spec (§4.1): parse a declaration block body by
splitting on semicolons. -/
def parseDecls (body : List Char) : List Decl :=
  (splitOnChar ';' body).filterMap parseDeclChunk

/-- Modelled from the spec (§4.1): parse a sequence of
`keyText/selector \x7b declarations \x7d` blocks (keyframe frames, or the
style rules inside a media body; declaration bodies of this subset hold
no nested braces).  Fuel-driven; callers pass at least the input
length. -/
def parseBlocksF : Nat → List Char → List (String × List Decl)
  | 0, _ => []
  | f + 1, l =>
    let p1 := spanUntil '\x7b' (l.dropWhile isPyWS)
    if p1.2 = [] then []
    else
      let p2 := spanUntil '\x7d' p1.2.tail
      if p2.2 = [] then []
      else (strOf (pyStripList p1.1), parseDecls p2.1) :: parseBlocksF f p2.2.tail

/-- Strip one layer of matching single or double quotes. -/
def stripQuotes (l : List Char) : List Char :=
  match l with
  | [] => []
  | q :: t =>
    if (q = '\x27' ∨ q = '"') ∧ t.getLast? = some q then t.dropLast else q :: t

/-- Modelled from the spec (§4.1): extract the href of
`@import url(...)` — the text between the parentheses, stripped and
unquoted. -/
def extractHref (stmt : List Char) : Option String :=
  let t := stmt.dropWhile (fun x => x != '(')
  if t = [] then none
  else
    let p := spanUntil ')' t.tail
    if p.2 = [] then none
    else some (strOf (stripQuotes (pyStripList p.1)))

/-- Modelled from the spec (§4.1 and §3): the CSS parser of the design,
which the source delegates to the third-party `cssutils` library (not
part of this repository).  It recognises, at top level, `@import`
(statement form), `@charset` (dropped), `@keyframes`, `@media` (inside
which only style rules are recognised), any other at-rule in statement
form held verbatim as an `otherRule`, and style rules.  Malformed
trailing input yields no further rules.  Fuel-driven; `parseCss` passes
the input length. -/
def parseRulesF : Nat → List Char → List RuleNode
  | 0, _ => []
  | f + 1, l =>
    let l' := l.dropWhile isPyWS
    if l' = [] then []
    else if l'.head? = some '@' then
      if ("@import".data).isPrefixOf l' then
        let p := spanUntil ';' l'
        if p.2 = [] then []
        else
          match extractHref p.1 with
          | some h => RuleNode.importRule h :: parseRulesF f p.2.tail
          | none => RuleNode.otherRule (strOf (p.1 ++ [';'])) :: parseRulesF f p.2.tail
      else if ("@charset".data).isPrefixOf l' then
        let p := spanUntil ';' l'
        if p.2 = [] then [] else parseRulesF f p.2.tail
      else if ("@keyframes".data).isPrefixOf l' then
        let p := spanUntil '\x7b' (l'.drop 10)
        if p.2 = [] then []
        else
          match splitBlock 0 p.2.tail with
          | some bp =>
            RuleNode.keyframesRule (strOf (pyStripList p.1))
              (parseBlocksF (bp.1.length + 1) bp.1) :: parseRulesF f bp.2
          | none => []
      else if ("@media".data).isPrefixOf l' then
        let p := spanUntil '\x7b' (l'.drop 6)
        if p.2 = [] then []
        else
          match splitBlock 0 p.2.tail with
          | some bp =>
            RuleNode.mediaRule (strOf (pyStripList p.1))
              ((parseBlocksF (bp.1.length + 1) bp.1).map
                (fun b => MediaInner.styleInner b.1 b.2)) :: parseRulesF f bp.2
          | none => []
      else
        let p := spanUntil ';' l'
        if p.2 = [] then []
        else RuleNode.otherRule (strOf (p.1 ++ [';'])) :: parseRulesF f p.2.tail
    else
      let p1 := spanUntil '\x7b' l'
      if p1.2 = [] then []
      else
        let p2 := spanUntil '\x7d' p1.2.tail
        if p2.2 = [] then []
        else RuleNode.styleRule (strOf (pyStripList p1.1)) (parseDecls p2.1)
          :: parseRulesF f p2.2.tail

/-- Modelled from the spec (§4.1): `parse(text) -> RuleList`. -/
def parseCss (s : String) : List RuleNode :=
  parseRulesF (s.data.length + 1) s.data

/-- No character of `s` lies in the banned list `cs`. -/
abbrev noCharIn (s : String) (cs : List Char) : Prop := ∀ c ∈ s.data, c ∉ cs

/-- Well-formedness of a declaration for the round trip: both parts are
already stripped, the name holds no colon, semicolon or brace, the value
no semicolon or brace. -/
abbrev declWF (d : Decl) : Prop :=
  pyStrip d.1 = d.1 ∧ noCharIn d.1 [':', ';', '\x7b', '\x7d'] ∧
  pyStrip d.2 = d.2 ∧ noCharIn d.2 [';', '\x7b', '\x7d']

/-- Well-formedness of a keyframe frame: stripped brace-free keyText and
well-formed declarations. -/
abbrev frameWF (f : Frame) : Prop :=
  pyStrip f.1 = f.1 ∧ noCharIn f.1 ['\x7b', '\x7d'] ∧ ∀ d ∈ f.2, declWF d

/-- Well-formedness of a media child: it must be a style rule (other
children are dropped by the formatter and cannot round-trip) with a
stripped brace-free selector and well-formed declarations. -/
def innerWF (i : MediaInner) : Prop :=
  match i with
  | .styleInner s ds => pyStrip s = s ∧ noCharIn s ['\x7b', '\x7d'] ∧ ∀ d ∈ ds, declWF d
  | .otherInner _ => False

/-- Well-formedness of a rule for the formatting round trip: fields are
already stripped and free of the structural characters the grammar uses
around them; a fallback at-rule is a statement-form at-rule (one
trailing semicolon), not one of the four recognised kinds, and free of
`@charset` (otherwise the formatter suppresses it). -/
def ruleWF (r : RuleNode) : Prop :=
  match r with
  | .styleRule sel ds =>
      pyStrip sel = sel ∧ noCharIn sel ['\x7b', '\x7d'] ∧ sel.data.head? ≠ some '@' ∧
      ∀ d ∈ ds, declWF d
  | .importRule href => noCharIn href [';', '(', ')', '\x27']
  | .keyframesRule name frames =>
      pyStrip name = name ∧ noCharIn name ['\x7b', '\x7d'] ∧ ∀ f ∈ frames, frameWF f
  | .mediaRule q inner =>
      pyStrip q = q ∧ noCharIn q ['\x7b', '\x7d'] ∧ ∀ i ∈ inner, innerWF i
  | .otherRule t =>
      t.data.head? = some '@' ∧ pyStrip t = t ∧ strContains t "@charset" = false ∧
      ("@import".data).isPrefixOf t.data = false ∧
      ("@keyframes".data).isPrefixOf t.data = false ∧
      ("@media".data).isPrefixOf t.data = false ∧
      t.data.getLast? = some ';' ∧ ';' ∉ t.data.dropLast

instance : DecidablePred innerWF := fun i =>
  match i with
  | .styleInner s ds =>
      inferInstanceAs (Decidable (pyStrip s = s ∧ noCharIn s ['\x7b', '\x7d'] ∧ ∀ d ∈ ds, declWF d))
  | .otherInner _ => inferInstanceAs (Decidable False)

instance : DecidablePred ruleWF := fun r =>
  match r with
  | .styleRule sel ds =>
      inferInstanceAs (Decidable (pyStrip sel = sel ∧ noCharIn sel ['\x7b', '\x7d'] ∧
        sel.data.head? ≠ some '@' ∧ ∀ d ∈ ds, declWF d))
  | .importRule href => inferInstanceAs (Decidable (noCharIn href [';', '(', ')', '\x27']))
  | .keyframesRule name frames =>
      inferInstanceAs (Decidable (pyStrip name = name ∧ noCharIn name ['\x7b', '\x7d'] ∧
        ∀ f ∈ frames, frameWF f))
  | .mediaRule q inner =>
      inferInstanceAs (Decidable (pyStrip q = q ∧ noCharIn q ['\x7b', '\x7d'] ∧
        ∀ i ∈ inner, innerWF i))
  | .otherRule t =>
      inferInstanceAs (Decidable (t.data.head? = some '@' ∧ pyStrip t = t ∧
        strContains t "@charset" = false ∧
        ("@import".data).isPrefixOf t.data = false ∧
        ("@keyframes".data).isPrefixOf t.data = false ∧
        ("@media".data).isPrefixOf t.data = false ∧
        t.data.getLast? = some ';' ∧ ';' ∉ t.data.dropLast))

theorem sortStr_eq_of_perm {l₁ l₂ : List String} (h : l₁.Perm l₂) :
    sortStr l₁ = sortStr l₂ :=
  List.eq_of_perm_of_sorted
    ((List.perm_insertionSort _ l₁).trans (h.trans (List.perm_insertionSort _ l₂).symm))
    (List.sorted_insertionSort _ l₁) (List.sorted_insertionSort _ l₂)

theorem frameSig_congr {f g : Frame} (h : FrameEquiv f g) : frameSig f = frameSig g := by
  obtain ⟨h1, h2⟩ := h
  unfold frameSig
  rw [h1, sortStr_eq_of_perm (h2.map pvSig)]

theorem innerSig_style (s : String) (ds : List Decl) :
    innerSig (.styleInner s ds) = some (s ++ ":" ++ joinS ";" (sortStr (ds.map pvSig))) := rfl

theorem innerSig_congr {a b : MediaInner} (h : InnerEquiv a b) : innerSig a = innerSig b := by
  cases a <;> cases b <;> try exact absurd h id
  · obtain ⟨h1, h2⟩ := h
    rw [innerSig_style, innerSig_style, h1, sortStr_eq_of_perm (h2.map pvSig)]
  · exact congrArg _ (congrArg _ h)

theorem map_frameSig_eq {l₁ l₂ : List Frame} (h : List.Forall₂ FrameEquiv l₁ l₂) :
    l₁.map frameSig = l₂.map frameSig := by
  induction h with
  | nil => rfl
  | cons hab _ ih => simp [List.map_cons, frameSig_congr hab, ih]

theorem filterMap_innerSig_eq {l₁ l₂ : List MediaInner}
    (h : List.Forall₂ InnerEquiv l₁ l₂) :
    l₁.filterMap innerSig = l₂.filterMap innerSig := by
  induction h with
  | nil => rfl
  | cons hab _ ih => simp only [List.filterMap_cons, innerSig_congr hab, ih]

/-- Claim C1 (code_bug evidence): the source's merge does **not** give
external rules precedence, nor does it put every external rule before
every inline-only rule.  Because the inline loop is nested inside the
external loop, an inline rule sharing a key with a later external rule
is emitted (from the inline list) before that external rule is reached,
and an inline-only rule is emitted between the first and second external
rules. -/
theorem C1_merge_order_violated :
    (mergeNodes [.styleRule ".a" [], .styleRule ".b" [("color", "red")]]
        [.styleRule ".b" [("color", "blue")]] =
      [.styleRule ".a" [], .styleRule ".b" [("color", "blue")]]) ∧
    get_rule_key (RuleNode.styleRule ".b" [("color", "red")]) =
      get_rule_key (RuleNode.styleRule ".b" [("color", "blue")]) ∧
    (RuleNode.styleRule ".b" [("color", "blue")]) ≠ RuleNode.styleRule ".b" [("color", "red")] ∧
    (mergeNodes [.styleRule ".a" [], .styleRule ".b" []] [.styleRule ".c" []] =
      [.styleRule ".a" [], .styleRule ".c" [], .styleRule ".b" []]) := by
  refine ⟨by decide, rfl, by decide, by decide⟩

/-- Claim C2 (code_bug evidence): with an empty external list the nested
inline loop never runs, so the merge of `[]` with a single `@import`
rule emits nothing — the output has 0 rules although there is 1 distinct
key across both inputs, and spec Example 2 fails. -/
theorem C2_empty_external_drops_inline :
    mergeNodes [] [.importRule "x.css"] = [] ∧
    finalCssNodes [] [.importRule "x.css"] = "" := by
  refine ⟨rfl, rfl⟩

/-- Claim C3: the identity key of a style rule is `"style:"` followed by
the lowercased, whitespace-trimmed selector; the declarations do not
influence the key; hence in spec Example 1 the inline `.a` rule is
dropped in favour of the external one. -/
theorem C3_style_key_ignores_decls :
    (∀ sel ds, get_rule_key (.styleRule sel ds) = "style:" ++ pyLower (pyStrip sel)) ∧
    (∀ sel ds ds', get_rule_key (.styleRule sel ds) = get_rule_key (.styleRule sel ds')) ∧
    mergeNodes [.styleRule ".a" [("color", "red")]]
        [.styleRule ".a" [("color", "blue")], .styleRule ".b" [("color", "green")]] =
      [.styleRule ".a" [("color", "red")], .styleRule ".b" [("color", "green")]] :=
  ⟨fun _ _ => rfl, fun _ _ _ => rfl, by decide⟩

/-- Claim C4: the identity key of a `@keyframes` rule is unchanged under
permuting its frames and/or the declarations within any frame, and the
identity key of an `@media` rule is unchanged under permuting its inner
rules and/or the declarations within any inner style rule. -/
theorem C4_key_stable_under_perm
    (name : String) (fs₁ fs₂ : List Frame) (q : String) (is₁ is₂ : List MediaInner)
    (hf : ∃ mid, fs₁.Perm mid ∧ List.Forall₂ FrameEquiv mid fs₂)
    (hi : ∃ mid, is₁.Perm mid ∧ List.Forall₂ InnerEquiv mid is₂) :
    get_rule_key (.keyframesRule name fs₁) = get_rule_key (.keyframesRule name fs₂) ∧
    get_rule_key (.mediaRule q is₁) = get_rule_key (.mediaRule q is₂) := by
  obtain ⟨mid, hperm, hall⟩ := hf
  obtain ⟨midI, hpermI, hallI⟩ := hi
  have h3 : (fs₁.map frameSig).Perm (fs₂.map frameSig) := by
    have h := hperm.map frameSig
    rwa [map_frameSig_eq hall] at h
  have h4 : (is₁.filterMap innerSig).Perm (is₂.filterMap innerSig) := by
    have h := hpermI.filterMap innerSig
    rwa [filterMap_innerSig_eq hallI] at h
  constructor
  · show "keyframes:" ++ name ++ ":" ++ joinS ":" (sortStr (fs₁.map frameSig)) =
      "keyframes:" ++ name ++ ":" ++ joinS ":" (sortStr (fs₂.map frameSig))
    rw [sortStr_eq_of_perm h3]
  · show "media:" ++ q ++ ":" ++ joinS ":" (sortStr (is₁.filterMap innerSig)) =
      "media:" ++ q ++ ":" ++ joinS ":" (sortStr (is₂.filterMap innerSig))
    rw [sortStr_eq_of_perm h4]

/-- Witness for C4 at concrete inputs: spec Example 4 style — two
`@keyframes spin` rules with frames and declarations in different order,
and a media rule with reordered children and declarations. -/
theorem C4_key_stable_under_perm_witness :
    get_rule_key (.keyframesRule "spin"
        [("0%", [("top", "0"), ("left", "1")]), ("100%", [("top", "9")])]) =
      get_rule_key (.keyframesRule "spin"
        [("100%", [("top", "9")]), ("0%", [("left", "1"), ("top", "0")])]) ∧
    get_rule_key (.mediaRule "screen"
        [.styleInner ".a" [("color", "red"), ("margin", "0")], .otherInner "x"]) =
      get_rule_key (.mediaRule "screen"
        [.otherInner "x", .styleInner ".a" [("margin", "0"), ("color", "red")]]) :=
  C4_key_stable_under_perm "spin" _ _ "screen" _ _
    ⟨[("100%", [("top", "9")]), ("0%", [("top", "0"), ("left", "1")])],
      by decide, ⟨rfl, by decide⟩ |> fun h => .cons h (.cons ⟨rfl, by decide⟩ .nil)⟩
    ⟨[.otherInner "x", .styleInner ".a" [("color", "red"), ("margin", "0")]],
      by decide, .cons rfl (.cons ⟨rfl, by decide⟩ .nil)⟩

/-- Claim C6: a parse failure (the `except` branch of `load_css_rules`)
yields an empty rule list rather than an exception, and the merge and
formatting of the other source proceed exactly as if an empty list had
been supplied — the run never aborts. -/
theorem C6_parse_failure_recovery (e : String) (rules : List RuleNode) :
    load_css_rules (.error e) = [] ∧
    finalCss (load_css_rules (.error e)) (load_css_rules (.ok rules)) =
      finalCss [] (load_css_rules (.ok rules)) ∧
    finalCss (load_css_rules (.ok rules)) (load_css_rules (.error e)) =
      finalCss (load_css_rules (.ok rules)) [] :=
  ⟨rfl, rfl, rfl⟩

theorem prefix_append_cons {α : Type} {c : α} {p b : List α} (hc : c ∉ p) :
    ∀ {l : List α}, p <+: l ++ c :: b → p <+: l := by
  induction p with
  | nil => intro l _; exact List.nil_prefix
  | cons q p' ih =>
    intro l h
    cases l with
    | nil =>
      rw [List.nil_append, List.cons_prefix_cons] at h
      exact absurd (h.1 ▸ List.mem_cons_self q p') hc
    | cons x l' =>
      rw [List.cons_append, List.cons_prefix_cons] at h
      exact List.cons_prefix_cons.mpr ⟨h.1, ih (fun hm => hc (List.mem_cons_of_mem q hm)) h.2⟩

theorem infix_append_cons {α : Type} {c : α} {p b : List α} (hc : c ∉ p) :
    ∀ {a : List α}, p <:+: a ++ c :: b → p <:+: a ∨ p <:+: b := by
  intro a
  induction a with
  | nil =>
    intro h
    rw [List.nil_append, List.infix_cons_iff] at h
    rcases h with h | h
    · cases p with
      | nil => exact Or.inl List.nil_infix
      | cons q p' =>
        rw [List.cons_prefix_cons] at h
        exact absurd (h.1 ▸ List.mem_cons_self q p') hc
    · exact Or.inr h
  | cons x a' ih =>
    intro h
    rw [List.cons_append, List.infix_cons_iff] at h
    rcases h with h | h
    · exact Or.inl ((prefix_append_cons hc (l := x :: a') h).isInfix)
    · rcases ih h with h' | h'
      · exact Or.inl (List.infix_cons h')
      · exact Or.inr h'

theorem noCh_nil : NoCh [] := by decide

theorem noCh_append_cons {c : Char} {a b : List Char}
    (hc : c ∉ chPat) (ha : NoCh a) (hb : NoCh b) : NoCh (a ++ c :: b) := fun h =>
  (infix_append_cons hc h).elim ha hb

theorem noCh_cons {c : Char} {b : List Char} (hc : c ∉ chPat) (hb : NoCh b) :
    NoCh (c :: b) :=
  noCh_append_cons (a := []) hc noCh_nil hb

theorem noCh_short {l : List Char} (h : l.length < 8) : NoCh l := fun hin => by
  have := hin.length_le
  have hp : chPat.length = 8 := by decide
  omega

theorem noCh_of_infix {l m : List Char} (h : NoCh l) (hm : m <:+: l) : NoCh m :=
  fun hin => h (hin.trans hm)

theorem noCh_spaces {b : List Char} (hb : NoCh b) :
    ∀ n : Nat, NoCh (List.replicate n ' ' ++ b) := by
  intro n
  induction n with
  | zero => exact hb
  | succ m ih =>
    rw [List.replicate_succ, List.cons_append]
    exact noCh_cons (by decide) ih

theorem strData_ext {a b : String} (h : a.data = b.data) : a = b := by
  cases a; cases b; exact congrArg String.mk h

theorem pyStripList_infix_mono (l : List Char) : pyStripList l <:+: l := by
  have h1 : l.dropWhile isPyWS <:+ l := List.dropWhile_suffix isPyWS
  have h2 : (l.dropWhile isPyWS).reverse.dropWhile isPyWS <:+ (l.dropWhile isPyWS).reverse :=
    List.dropWhile_suffix isPyWS
  have h3 : ((l.dropWhile isPyWS).reverse.dropWhile isPyWS).reverse <+:
      (l.dropWhile isPyWS).reverse.reverse := List.reverse_prefix.mpr h2
  rw [List.reverse_reverse] at h3
  exact (h3.isInfix).trans h1.isInfix

theorem noCh_pyStrip {s : String} (h : NoChS s) : NoChS (pyStrip s) :=
  noCh_of_infix h (pyStripList_infix_mono s.data)

theorem noCh_joinNL {ls : List String} (h : ∀ s ∈ ls, NoChS s) : NoChS (joinNL ls) := by
  induction ls with
  | nil => exact noCh_nil
  | cons x t ih =>
    cases t with
    | nil => exact h x (List.mem_singleton.mpr rfl)
    | cons y t' =>
      show NoCh ((x ++ "\n" ++ joinS "\n" (y :: t')).data)
      simp only [String.data_append, List.append_assoc]
      simp only [List.cons_append, List.nil_append]
      exact noCh_append_cons (by decide) (h x (List.mem_cons_self x _))
        (ih (fun s hs => h s (List.mem_cons_of_mem x hs)))

theorem noCh_declLine {ind : String} (hind : ∃ n, ind.data = List.replicate n ' ')
    {d : Decl} (hd : declClean d) : NoChS (declLine ind d) := by
  obtain ⟨n, hn⟩ := hind
  show NoCh ((ind ++ d.1 ++ ": " ++ d.2 ++ ";").data)
  simp only [String.data_append, List.append_assoc]
  rw [hn]
  simp only [List.cons_append, List.nil_append]
  exact noCh_spaces (noCh_append_cons (by decide) hd.1
    (noCh_cons (by decide) (noCh_append_cons (by decide) hd.2 noCh_nil))) n

theorem noCh_format_css_rule {sel : String} {ds : List Decl} {ind : String}
    (hind : ∃ n, ind.data = List.replicate n ' ')
    (hsel : NoChS sel) (hds : ∀ d ∈ ds, declClean d) :
    NoChS (format_css_rule sel ds ind) := by
  cases ds with
  | nil =>
    show NoCh ((pyStrip sel ++ " \x7b\x7d").data)
    simp only [String.data_append]
    exact noCh_append_cons (by decide) (noCh_pyStrip hsel) (noCh_short (by decide))
  | cons d₀ ds' =>
    show NoCh ((pyStrip sel ++ " \x7b\n" ++ joinNL ((d₀ :: ds').map (declLine ind)) ++ "\n\x7d").data)
    simp only [String.data_append, List.append_assoc]
    simp only [List.cons_append, List.nil_append]
    refine noCh_append_cons (by decide) (noCh_pyStrip hsel)
      (noCh_cons (by decide) (noCh_cons (by decide)
        (noCh_append_cons (by decide) ?_ (noCh_short (by decide)))))
    exact noCh_joinNL (fun s hs => by
      obtain ⟨d, hd, rfl⟩ := List.mem_map.mp hs
      exact noCh_declLine hind (hds d hd))

/-- Claim C9: the identity-key function is not injective on structurally
distinct `@keyframes` rules — a `":"` inside a keyText collides with the
`":"` separator between keyText and the declaration signatures. -/
theorem C9_keyframes_key_not_injective :
    get_rule_key (.keyframesRule "n" [("a:b", [])]) =
      get_rule_key (.keyframesRule "n" [("a", [("b", "")])]) ∧
    (RuleNode.keyframesRule "n" [("a:b", [])]) ≠ RuleNode.keyframesRule "n" [("a", [("b", "")])] := by
  refine ⟨by decide, by decide⟩

theorem noCh_frameBlock {ind : String} (hind : ∃ n, ind.data = List.replicate n ' ')
    {f : Frame} (hkt : NoChS f.1) (hds : ∀ d ∈ f.2, declClean d) :
    NoChS (frameBlock ind f) := by
  obtain ⟨n, hn⟩ := hind
  show NoCh ((ind ++ f.1 ++ " \x7b\n" ++ joinNL (f.2.map (declLine (ind ++ ind))) ++
    "\n" ++ ind ++ "\x7d").data)
  simp only [String.data_append, List.append_assoc]
  rw [hn]
  simp only [List.cons_append, List.nil_append]
  refine noCh_spaces (noCh_append_cons (by decide) hkt
    (noCh_cons (by decide) (noCh_cons (by decide)
      (noCh_append_cons (by decide) ?_ (noCh_spaces (by decide) n))))) n
  refine noCh_joinNL (fun s hs => ?_)
  obtain ⟨d, hd, rfl⟩ := List.mem_map.mp hs
  refine noCh_declLine ⟨n + n, ?_⟩ (hds d hd)
  rw [String.data_append, hn, List.replicate_add]

theorem noCh_format_at_rule {r : RuleNode} {ind : String}
    (hind : ∃ n, ind.data = List.replicate n ' ') (h : ruleClean r) :
    NoChS (format_at_rule r ind) := by
  cases r with
  | styleRule sel ds => exact noCh_format_css_rule hind h.1 h.2
  | importRule href =>
    show NoCh (("@import url(\x27" ++ href ++ "\x27);").data)
    simp only [String.data_append, List.append_assoc, List.cons_append, List.nil_append]
    exact noCh_append_cons (c := '\x27') (a := ("@import url(").data) (by decide) (by decide)
      (noCh_append_cons (by decide) h (by decide))
  | keyframesRule name frames =>
    show NoCh (("@keyframes " ++ name ++ " \x7b\n" ++
      joinNL (frames.map (frameBlock ind)) ++ "\n\x7d").data)
    simp only [String.data_append, List.append_assoc, List.cons_append, List.nil_append]
    refine noCh_append_cons (c := ' ') (a := ("@keyframes").data) (by decide) (by decide)
      (noCh_append_cons (by decide) h.1 (noCh_cons (by decide) (noCh_cons (by decide)
        (noCh_append_cons (by decide) ?_ (by decide)))))
    refine noCh_joinNL (fun s hs => ?_)
    obtain ⟨f, hf, rfl⟩ := List.mem_map.mp hs
    exact noCh_frameBlock hind (h.2 f hf).1 (h.2 f hf).2
  | mediaRule q inner =>
    show NoCh (("@media " ++ q ++ " \x7b\n" ++
      joinNL (inner.filterMap (fun r => match r with
        | .styleInner sel ds => some (ind ++ format_css_rule sel ds (ind ++ ind))
        | .otherInner _ => none)) ++ "\n\x7d").data)
    simp only [String.data_append, List.append_assoc, List.cons_append, List.nil_append]
    refine noCh_append_cons (c := ' ') (a := ("@media").data) (by decide) (by decide)
      (noCh_append_cons (by decide) h.1 (noCh_cons (by decide) (noCh_cons (by decide)
        (noCh_append_cons (by decide) ?_ (by decide)))))
    refine noCh_joinNL (fun s hs => ?_)
    obtain ⟨i, hi, hsome⟩ := List.mem_filterMap.mp hs
    obtain ⟨n, hn⟩ := hind
    cases i with
    | styleInner sel ds =>
      obtain rfl : ind ++ format_css_rule sel ds (ind ++ ind) = s := Option.some_inj.mp hsome
      show NoCh ((ind ++ format_css_rule sel ds (ind ++ ind)).data)
      rw [String.data_append, hn]
      refine noCh_spaces ?_ n
      refine noCh_format_css_rule ⟨n + n, ?_⟩ (h.2 (.styleInner sel ds) hi).1
        (h.2 (.styleInner sel ds) hi).2
      rw [String.data_append, hn, List.replicate_add]
    | otherInner raw => exact absurd hsome (by simp)
  | otherRule t =>
    show NoCh ((if strContains t "@charset" then "" else t).data)
    by_cases hc : strContains t "@charset" = true
    · rw [if_pos hc]; exact noCh_nil
    · rw [if_neg hc]
      exact of_decide_eq_false ((Bool.not_eq_true _).mp hc)

theorem noCh_formatRule {r : RuleNode} (h : ruleClean r) : NoChS (formatRule r) := by
  have h4 : ∃ n, ("    ").data = List.replicate n ' ' := ⟨4, by decide⟩
  cases r with
  | styleRule sel ds => exact noCh_format_css_rule h4 h.1 h.2
  | importRule href => exact noCh_format_at_rule h4 h
  | keyframesRule name frames => exact noCh_format_at_rule h4 h
  | mediaRule q inner => exact noCh_format_at_rule h4 h
  | otherRule t => exact noCh_format_at_rule h4 h

theorem mem_emitInlineLoop {r : RuleNode} :
    ∀ {inl : List (String × RuleNode)} {proc : List String},
      r ∈ (emitInlineLoop inl proc).1 → ∃ k, (k, r) ∈ inl := by
  intro inl
  induction inl with
  | nil => intro proc h; exact absurd h (List.not_mem_nil r)
  | cons p rest ih =>
    intro proc h
    obtain ⟨k', r'⟩ := p
    simp only [emitInlineLoop] at h
    split at h
    · obtain ⟨k, hk⟩ := ih h
      exact ⟨k, List.mem_cons_of_mem _ hk⟩
    · rcases List.mem_cons.mp h with rfl | hmem
      · exact ⟨k', List.mem_cons_self _ _⟩
      · obtain ⟨k, hk⟩ := ih hmem
        exact ⟨k, List.mem_cons_of_mem _ hk⟩

theorem mem_mergeLoop {r : RuleNode} {inl : List (String × RuleNode)} :
    ∀ {ext : List (String × RuleNode)} {proc : List String},
      r ∈ mergeLoop ext inl proc → (∃ k, (k, r) ∈ ext) ∨ ∃ k, (k, r) ∈ inl := by
  intro ext
  induction ext with
  | nil => intro proc h; exact absurd h (List.not_mem_nil r)
  | cons p rest ih =>
    intro proc h
    obtain ⟨k', r'⟩ := p
    simp only [mergeLoop] at h
    split at h
    · rcases ih h with ⟨k, hk⟩ | hk
      · exact Or.inl ⟨k, List.mem_cons_of_mem _ hk⟩
      · exact Or.inr hk
    · rcases List.mem_cons.mp h with rfl | hmem
      · exact Or.inl ⟨k', List.mem_cons_self _ _⟩
      · rcases List.mem_append.mp hmem with hmem' | hmem'
        · exact Or.inr (mem_emitInlineLoop hmem')
        · rcases ih hmem' with ⟨k, hk⟩ | hk
          · exact Or.inl ⟨k, List.mem_cons_of_mem _ hk⟩
          · exact Or.inr hk

theorem mem_of_mem_keyed {r : RuleNode} {k : String} {l : List RuleNode}
    (h : (k, r) ∈ keyed l) : r ∈ l := by
  obtain ⟨a, ha, heq⟩ := List.mem_map.mp h
  cases heq
  exact ha

/-- Claim C5: for every pair of (parsed) rule lists whose non-fallback
fields are `@charset`-free — as any real parse of CSS yields, since
`@charset` cannot occur inside a selector, href, name, query or
declaration — the final merged output contains no `@charset` text at
all: a fallback at-rule carrying `@charset` renders to the empty string
(source lines 44-47), so nothing `@charset`-flavoured survives
formatting, joining and stripping. -/
theorem C5_no_charset_in_output (ext inl : List RuleNode)
    (hext : ∀ r ∈ ext, ruleClean r) (hinl : ∀ r ∈ inl, ruleClean r) :
    strContains (finalCssNodes ext inl) "@charset" = false := by
  apply decide_eq_false
  show NoCh ((pyStrip (joinNL (mergedLines (keyed ext) (keyed inl)))).data)
  apply noCh_of_infix _ (pyStripList_infix_mono _)
  apply noCh_joinNL
  intro s hs
  obtain ⟨r, hr, rfl⟩ := List.mem_map.mp hs
  apply noCh_formatRule
  rcases mem_mergeLoop hr with ⟨k, hk⟩ | ⟨k, hk⟩
  · exact hext r (mem_of_mem_keyed hk)
  · exact hinl r (mem_of_mem_keyed hk)

/-- Witness for C5: an external list containing a `@charset` at-rule and
an import, an inline list with one style rule; the concrete output holds
no `@charset`. -/
theorem C5_no_charset_in_output_witness :
    (∀ r ∈ [RuleNode.otherRule "@charset \x22UTF-8\x22;", RuleNode.importRule "x.css"],
      ruleClean r) ∧
    (∀ r ∈ [RuleNode.styleRule ".a" [("color", "red")]], ruleClean r) ∧
    strContains (finalCssNodes
      [RuleNode.otherRule "@charset \x22UTF-8\x22;", RuleNode.importRule "x.css"]
      [RuleNode.styleRule ".a" [("color", "red")]]) "@charset" = false :=
  ⟨by decide, by decide,
    C5_no_charset_in_output _ _ (by decide) (by decide)⟩

theorem mergeLoop_cons_not_mem {k : String} {r : RuleNode}
    {rest inl : List (String × RuleNode)} {proc : List String} (h : k ∉ proc) :
    mergeLoop ((k, r) :: rest) inl proc =
      r :: ((emitInlineLoop inl (k :: proc)).1 ++
        mergeLoop rest inl (emitInlineLoop inl (k :: proc)).2) := by
  simp only [mergeLoop, if_neg h]

/-- Claim C10: an at-rule whose text contains `@charset`, sitting between
two other external rules (all keys distinct, empty inline list), formats
to the empty string but still contributes one entry to the `lines` list,
so the newline-joined output carries an empty line at that position; only
the outer ends of the whole result are stripped. -/
theorem C10_charset_blank_line (r1 r2 : RuleNode) (t : String)
    (hch : strContains t "@charset" = true)
    (h12 : get_rule_key r1 ≠ get_rule_key (.otherRule t))
    (h13 : get_rule_key r1 ≠ get_rule_key r2)
    (h23 : get_rule_key (.otherRule t) ≠ get_rule_key r2) :
    mergedLines (keyed [r1, .otherRule t, r2]) (keyed []) =
      [formatRule r1, "", formatRule r2] ∧
    finalCssNodes [r1, .otherRule t, r2] [] =
      pyStrip (formatRule r1 ++ "\n" ++ "\n" ++ formatRule r2) := by
  have hfmt : formatRule (.otherRule t) = "" := by
    show (if strContains t "@charset" then "" else t) = ""
    rw [hch]
    rfl
  have hmerge : mergeRules (keyed [r1, .otherRule t, r2]) (keyed []) =
      [r1, .otherRule t, r2] := by
    show mergeLoop [(get_rule_key r1, r1), (get_rule_key (.otherRule t), .otherRule t),
      (get_rule_key r2, r2)] [] [] = [r1, .otherRule t, r2]
    rw [mergeLoop_cons_not_mem (List.not_mem_nil _)]
    rw [show emitInlineLoop ([] : List (String × RuleNode)) [get_rule_key r1] =
      ([], [get_rule_key r1]) from rfl]
    rw [mergeLoop_cons_not_mem (fun hm => h12 (List.mem_singleton.mp hm).symm)]
    rw [show emitInlineLoop ([] : List (String × RuleNode))
      [get_rule_key (.otherRule t), get_rule_key r1] =
      ([], [get_rule_key (.otherRule t), get_rule_key r1]) from rfl]
    rw [mergeLoop_cons_not_mem (fun hm => by
      rcases List.mem_cons.mp hm with h | h
      · exact h23 h.symm
      · exact h13 ((List.mem_singleton.mp h).symm))]
    rfl
  have hlines : mergedLines (keyed [r1, .otherRule t, r2]) (keyed []) =
      [formatRule r1, "", formatRule r2] := by
    show (mergeRules (keyed [r1, .otherRule t, r2]) (keyed [])).map formatRule = _
    rw [hmerge]
    simp only [List.map_cons, List.map_nil, hfmt]
  refine ⟨hlines, ?_⟩
  show pyStrip (joinNL (mergedLines (keyed [r1, .otherRule t, r2]) (keyed []))) = _
  rw [hlines]
  apply congrArg pyStrip
  apply strData_ext
  simp only [joinNL, joinS, String.data_append]
  simp

/-- Witness for C10 at a concrete input: `@import`, then a `@charset`
at-rule, then a style rule. -/
theorem C10_charset_blank_line_witness :
    strContains "@charset \x22UTF-8\x22;" "@charset" = true ∧
    get_rule_key (.importRule "a.css") ≠ get_rule_key (.otherRule "@charset \x22UTF-8\x22;") ∧
    get_rule_key (.importRule "a.css") ≠ get_rule_key (.styleRule ".b" []) ∧
    get_rule_key (.otherRule "@charset \x22UTF-8\x22;") ≠ get_rule_key (.styleRule ".b" []) ∧
    (mergedLines (keyed [.importRule "a.css", .otherRule "@charset \x22UTF-8\x22;",
        .styleRule ".b" []]) (keyed []) =
      [formatRule (.importRule "a.css"), "", formatRule (.styleRule ".b" [])] ∧
    finalCssNodes [.importRule "a.css", .otherRule "@charset \x22UTF-8\x22;",
        .styleRule ".b" []] [] =
      pyStrip (formatRule (.importRule "a.css") ++ "\n" ++ "\n" ++
        formatRule (.styleRule ".b" []))) :=
  ⟨by decide, by decide, by decide, by decide,
    C10_charset_blank_line _ _ _ (by decide) (by decide) (by decide) (by decide)⟩

theorem strAppend_assoc (a b c : String) : a ++ b ++ c = a ++ (b ++ c) :=
  strData_ext (by simp [String.data_append])

theorem joinNL_cons {x : String} {ls : List String} (h : ls ≠ []) :
    joinNL (x :: ls) = x ++ "\n" ++ joinNL ls := by
  cases ls with
  | nil => exact absurd rfl h
  | cons y t => rfl

theorem joinNL_append_last {ftr : String} :
    ∀ {blocks : List String}, blocks ≠ [] →
      joinNL (blocks ++ [ftr]) = joinNL blocks ++ "\n" ++ ftr := by
  intro blocks
  induction blocks with
  | nil => intro h; exact absurd rfl h
  | cons b bs ih =>
    intro _
    cases bs with
    | nil => rfl
    | cons c cs =>
      show b ++ "\n" ++ joinNL ((c :: cs) ++ [ftr]) =
        (b ++ "\n" ++ joinNL (c :: cs)) ++ "\n" ++ ftr
      rw [ih (by simp)]
      apply strData_ext
      simp [String.data_append]

theorem mediaInnerLine_eq (s : String) (ds : List Decl) :
    "    " ++ format_css_rule s ds "        " =
      joinNL (specStyleLines "    " "        " s ds) := by
  cases ds with
  | nil =>
    show "    " ++ (pyStrip s ++ " \x7b\x7d") = joinNL ["    " ++ pyStrip s ++ " \x7b\x7d"]
    apply strData_ext
    simp [String.data_append, joinNL, joinS]
  | cons d₀ ds' =>
    show "    " ++ (pyStrip s ++ " \x7b\n" ++
        joinNL ((d₀ :: ds').map (declLine "        ")) ++ "\n\x7d") =
      joinNL (("    " ++ pyStrip s ++ " \x7b") ::
        ((d₀ :: ds').map (declLine "        ") ++ ["\x7d"]))
    rw [joinNL_cons (by simp), joinNL_append_last (by simp)]
    apply strData_ext
    simp [String.data_append]

theorem mediaFilterMap_eq (inner : List MediaInner) :
    inner.filterMap (fun r => match r with
      | .styleInner s₀ ds₀ => some ("    " ++ format_css_rule s₀ ds₀ ("    " ++ "    "))
      | .otherInner _ => none) = mediaStyleBlocks inner := by
  unfold mediaStyleBlocks
  induction inner with
  | nil => rfl
  | cons i rest ih =>
    cases i with
    | styleInner s₀ ds₀ =>
      show ("    " ++ format_css_rule s₀ ds₀ ("    " ++ "    ")) ::
          List.filterMap (fun r => match r with
            | MediaInner.styleInner s₀ ds₀ =>
                some ("    " ++ format_css_rule s₀ ds₀ ("    " ++ "    "))
            | MediaInner.otherInner _ => none) rest =
        (joinNL (specStyleLines "    " "        " s₀ ds₀)) ::
          List.filterMap (fun i => match i with
            | MediaInner.styleInner s ds => some (joinNL (specStyleLines "    " "        " s ds))
            | MediaInner.otherInner _ => none) rest
      rw [ih, show ("    " ++ "    " : String) = "        " from rfl, mediaInnerLine_eq s₀ ds₀]
    | otherInner raw => exact ih

/-- Claim C7 counterexample: the formatter does **not** indent the inner
closing brace of a media rule — the f-string at source line 40 prefixes
only the first line of the inner rule — so the rendered output differs
from the claim's shape, which demands four spaces before the inner
closing brace. -/
theorem C7_media_brace_counterexample :
    formatRule (.mediaRule "screen" [.styleInner ".a" [("color", "red")]]) =
      "@media screen \x7b\n    .a \x7b\n        color: red;\n\x7d\n\x7d" ∧
    formatRule (.mediaRule "screen" [.styleInner ".a" [("color", "red")]]) ≠
      "@media screen \x7b\n    .a \x7b\n        color: red;\n    \x7d\n\x7d" := by
  refine ⟨by decide, by decide⟩

/-- Claim C7 as amended: the style-rule rendering is exactly as claimed
(selector line, declarations at four spaces, closing brace; `sel \x7b\x7d`
when empty), and the media rendering has selector lines at four spaces
and declarations at eight, but each inner rule's closing brace at column
0 (not four spaces) before the final unindented brace. -/
theorem C7_formatter_shape_amended (sel : String) (ds : List Decl)
    (q : String) (inner : List MediaInner)
    (hne : mediaStyleBlocks inner ≠ []) :
    format_css_rule sel ds = specFormatStyle sel ds ∧
    formatRule (.mediaRule q inner) = specFormatMedia q inner := by
  constructor
  · cases ds with
    | nil =>
      show pyStrip sel ++ " \x7b\x7d" = joinNL ["" ++ pyStrip sel ++ " \x7b\x7d"]
      apply strData_ext
      simp [String.data_append, joinNL, joinS]
    | cons d₀ ds' =>
      show pyStrip sel ++ " \x7b\n" ++ joinNL ((d₀ :: ds').map (declLine "    ")) ++ "\n\x7d" =
        joinNL (("" ++ pyStrip sel ++ " \x7b") ::
          ((d₀ :: ds').map (declLine "    ") ++ ["\x7d"]))
      rw [joinNL_cons (by simp), joinNL_append_last (by simp)]
      apply strData_ext
      simp [String.data_append]
  · show "@media " ++ q ++ " \x7b\n" ++
        joinNL (inner.filterMap (fun r => match r with
          | .styleInner s₀ ds₀ => some ("    " ++ format_css_rule s₀ ds₀ ("    " ++ "    "))
          | .otherInner _ => none)) ++ "\n\x7d" =
      specFormatMedia q inner
    rw [mediaFilterMap_eq inner]
    unfold specFormatMedia
    rw [joinNL_cons (by simp), joinNL_append_last hne]
    apply strData_ext
    simp [String.data_append]

/-- Witness for the amended C7 at a concrete input. -/
theorem C7_formatter_shape_amended_witness :
    mediaStyleBlocks [.styleInner ".a" [("color", "red")], .otherInner "x"] ≠ [] ∧
    (format_css_rule ".s" [("margin", "0")] =
      specFormatStyle ".s" [("margin", "0")] ∧
    formatRule (.mediaRule "screen" [.styleInner ".a" [("color", "red")], .otherInner "x"]) =
      specFormatMedia "screen" [.styleInner ".a" [("color", "red")], .otherInner "x"]) :=
  ⟨by decide, C7_formatter_shape_amended ".s" [("margin", "0")] "screen"
    [.styleInner ".a" [("color", "red")], .otherInner "x"] (by decide)⟩

theorem takeWhile_ne_hit {c : Char} {a : List Char} (h : ∀ x ∈ a, x ≠ c) :
    ∀ b : List Char, (a ++ c :: b).takeWhile (fun x => x != c) = a := by
  induction a with
  | nil => intro b; simp [List.takeWhile_cons]
  | cons x t ih =>
    intro b
    have hx : (x != c) = true := bne_iff_ne.mpr (h x (List.mem_cons_self x t))
    simp only [List.cons_append, List.takeWhile_cons, hx]
    rw [ih (fun y hy => h y (List.mem_cons_of_mem x hy)) b]
    simp

theorem dropWhile_ne_hit {c : Char} {a : List Char} (h : ∀ x ∈ a, x ≠ c) :
    ∀ b : List Char, (a ++ c :: b).dropWhile (fun x => x != c) = c :: b := by
  induction a with
  | nil => intro b; simp [List.dropWhile_cons]
  | cons x t ih =>
    intro b
    have hx : (x != c) = true := bne_iff_ne.mpr (h x (List.mem_cons_self x t))
    simp only [List.cons_append, List.dropWhile_cons, hx]
    exact ih (fun y hy => h y (List.mem_cons_of_mem x hy)) b

theorem spanUntil_hit {c : Char} {a : List Char} (h : ∀ x ∈ a, x ≠ c) (b : List Char) :
    spanUntil c (a ++ c :: b) = (a, c :: b) := by
  unfold spanUntil
  rw [takeWhile_ne_hit h b, dropWhile_ne_hit h b]

theorem dropWhile_ne_miss {c : Char} {a : List Char} (h : ∀ x ∈ a, x ≠ c) :
    a.dropWhile (fun x => x != c) = [] := by
  induction a with
  | nil => rfl
  | cons x t ih =>
    have hx : (x != c) = true := bne_iff_ne.mpr (h x (List.mem_cons_self x t))
    simp only [List.dropWhile_cons, hx]
    exact ih (fun y hy => h y (List.mem_cons_of_mem x hy))

theorem spanUntil_miss {c : Char} {a : List Char} (h : ∀ x ∈ a, x ≠ c) :
    spanUntil c a = (a, []) := by
  unfold spanUntil
  rw [dropWhile_ne_miss h]
  rw [List.takeWhile_eq_self_iff.mpr (fun x hx => bne_iff_ne.mpr (h x hx))]

theorem dropWhile_ws_cons_neg {c : Char} {t : List Char} (h : isPyWS c = false) :
    (c :: t).dropWhile isPyWS = c :: t := by
  simp [List.dropWhile_cons, h]

theorem allWS_dropWhile {w : List Char} (h : ∀ c ∈ w, isPyWS c = true) :
    ∀ y : List Char, (w ++ y).dropWhile isPyWS = y.dropWhile isPyWS := by
  induction w with
  | nil => intro y; rfl
  | cons x t ih =>
    intro y
    simp only [List.cons_append, List.dropWhile_cons, h x (List.mem_cons_self x t)]
    exact ih (fun c hc => h c (List.mem_cons_of_mem x hc)) y

theorem allWS_dropWhile_nil {w : List Char} (h : ∀ c ∈ w, isPyWS c = true) :
    w.dropWhile isPyWS = [] := by
  have := allWS_dropWhile h []
  simpa using this

theorem trimmed_dropWhile {l : List Char} (h : pyStripList l = l) :
    l.dropWhile isPyWS = l := by
  have hsub : l.dropWhile isPyWS <:+ l := List.dropWhile_suffix _
  have hlen : l.length ≤ (l.dropWhile isPyWS).length := by
    calc l.length = (pyStripList l).length := by rw [h]
      _ = ((l.dropWhile isPyWS).reverse.dropWhile isPyWS).length := by
          simp [pyStripList]
      _ ≤ (l.dropWhile isPyWS).reverse.length :=
          (List.dropWhile_suffix isPyWS).sublist.length_le
      _ = (l.dropWhile isPyWS).length := by simp
  exact hsub.sublist.eq_of_length (le_antisymm hsub.sublist.length_le hlen)

theorem trimmed_head {x : Char} {t : List Char} (h : pyStripList (x :: t) = x :: t) :
    isPyWS x = false := by
  by_contra hx
  have hx' : isPyWS x = true := by
    cases hb : isPyWS x
    · exact absurd hb hx
    · rfl
  have hd := trimmed_dropWhile h
  rw [List.dropWhile_cons, hx'] at hd
  rw [if_pos rfl] at hd
  have hle : (t.dropWhile isPyWS).length ≤ t.length :=
    (List.dropWhile_suffix isPyWS).sublist.length_le
  have h2 := congrArg List.length hd
  simp at h2
  omega

theorem trimmed_reverse_dropWhile {l : List Char} (h : pyStripList l = l) :
    l.reverse.dropWhile isPyWS = l.reverse := by
  have h2 := h
  unfold pyStripList at h2
  rw [trimmed_dropWhile h] at h2
  have h3 := congrArg List.reverse h2
  simpa using h3

theorem pyStripList_sandwich {w₁ w₂ l : List Char}
    (h₁ : ∀ c ∈ w₁, isPyWS c = true) (h₂ : ∀ c ∈ w₂, isPyWS c = true)
    (hl : pyStripList l = l) :
    pyStripList (w₁ ++ l ++ w₂) = l := by
  cases l with
  | nil =>
    show pyStripList (w₁ ++ [] ++ w₂) = []
    unfold pyStripList
    rw [List.append_nil, allWS_dropWhile h₁, allWS_dropWhile_nil h₂]
    rfl
  | cons x t =>
    have hx : isPyWS x = false := trimmed_head hl
    unfold pyStripList
    rw [List.append_assoc, allWS_dropWhile h₁]
    rw [show ((x :: t) ++ w₂).dropWhile isPyWS = (x :: t) ++ w₂ from by
      simp [List.dropWhile_cons, hx]]
    rw [List.reverse_append]
    rw [allWS_dropWhile (fun c hc => h₂ c (List.mem_reverse.mp hc))]
    rw [trimmed_reverse_dropWhile hl]
    simp

theorem pyStripList_trimmed_pre {w l : List Char}
    (h : ∀ c ∈ w, isPyWS c = true) (hl : pyStripList l = l) :
    pyStripList (w ++ l) = l := by
  have := @pyStripList_sandwich w [] l h (fun c hc => absurd hc (List.not_mem_nil c)) hl
  simpa using this

theorem pyStripList_trimmed_post {w l : List Char}
    (h : ∀ c ∈ w, isPyWS c = true) (hl : pyStripList l = l) :
    pyStripList (l ++ w) = l := by
  have := @pyStripList_sandwich [] w l (fun c hc => absurd hc (List.not_mem_nil c)) h hl
  simpa using this

theorem pyStripList_ends {x y : Char} (hx : isPyWS x = false) (hy : isPyWS y = false)
    (m : List Char) : pyStripList (x :: (m ++ [y])) = x :: (m ++ [y]) := by
  unfold pyStripList
  rw [dropWhile_ws_cons_neg hx]
  rw [show (x :: (m ++ [y])).reverse = y :: (m.reverse ++ [x]) from by simp]
  rw [dropWhile_ws_cons_neg hy]
  simp

theorem pyStripList_single {x : Char} (hx : isPyWS x = false) :
    pyStripList [x] = [x] := by
  unfold pyStripList
  rw [dropWhile_ws_cons_neg hx]
  rw [show ([x] : List Char).reverse = [x] from rfl]
  rw [dropWhile_ws_cons_neg hx]
  rfl

theorem isPrefixOf_self_append (l t : List Char) : l.isPrefixOf (l ++ t) = true := by
  induction l with
  | nil => simp [List.isPrefixOf]
  | cons x xs ih => simp [List.isPrefixOf, ih]

theorem parseRulesF_empty (f : Nat) : parseRulesF f [] = [] := by
  cases f with
  | zero => rfl
  | succ g => simp [parseRulesF]

theorem trimmedS_data {s : String} (h : pyStrip s = s) : pyStripList s.data = s.data :=
  congrArg String.data h

theorem strOf_data (s : String) : strOf s.data = s := by
  cases s; rfl

theorem pyStripList_allWS {w : List Char} (h : ∀ c ∈ w, isPyWS c = true) :
    pyStripList w = [] := by
  unfold pyStripList
  rw [allWS_dropWhile_nil h]
  rfl

theorem pyStripList_cons_ws {x : Char} {l : List Char} (hx : isPyWS x = true)
    (hl : pyStripList l = l) : pyStripList (x :: l) = l := by
  have := pyStripList_trimmed_pre (w := [x])
    (fun c hc => by rcases List.mem_singleton.mp hc with rfl; exact hx) hl
  simpa using this

theorem trimmed_concat_end {l : List Char} (h : pyStripList l = l) {y : Char}
    (hy : isPyWS y = false) : pyStripList (l ++ [y]) = l ++ [y] := by
  cases l with
  | nil => simpa using pyStripList_single hy
  | cons x t =>
    have hx : isPyWS x = false := trimmed_head h
    have := pyStripList_ends hx hy t
    simpa using this

theorem splitOnChar_ne_nil {c : Char} : ∀ l : List Char, splitOnChar c l ≠ [] := by
  intro l
  cases l with
  | nil => simp [splitOnChar]
  | cons x t =>
    simp only [splitOnChar]
    rcases splitOnChar c t with _ | ⟨g, gs⟩
    · simp
    · by_cases hx : x = c <;> simp [hx]

theorem splitOnChar_miss {c : Char} {a : List Char} (h : c ∉ a) :
    splitOnChar c a = [a] := by
  induction a with
  | nil => rfl
  | cons x t ih =>
    have hx : ¬ x = c := fun e => h (e ▸ List.mem_cons_self x t)
    simp only [splitOnChar]
    rw [ih (fun hm => h (List.mem_cons_of_mem x hm))]
    simp [hx]

theorem splitOnChar_hit {c : Char} {a : List Char} (h : c ∉ a) :
    ∀ b, splitOnChar c (a ++ c :: b) = a :: splitOnChar c b := by
  induction a with
  | nil =>
    intro b
    show splitOnChar c (c :: b) = [] :: splitOnChar c b
    simp only [splitOnChar]
    rcases hb : splitOnChar c b with _ | ⟨g, gs⟩
    · exact absurd hb (splitOnChar_ne_nil b)
    · simp
  | cons x t ih =>
    intro b
    have hx : ¬ x = c := fun e => h (e ▸ List.mem_cons_self x t)
    show splitOnChar c (x :: (t ++ c :: b)) = (x :: t) :: splitOnChar c b
    simp only [splitOnChar]
    rw [ih (fun hm => h (List.mem_cons_of_mem x hm)) b]
    simp [hx]

theorem parseDeclChunk_ws {chunk : List Char} (h : ∀ c ∈ chunk, isPyWS c = true) :
    parseDeclChunk chunk = none := by
  unfold parseDeclChunk
  rw [pyStripList_allWS h]
  rfl

theorem trimmed_decl_core {N V : List Char} (hN : pyStripList N = N)
    (hV : pyStripList V = V) (hVne : V ≠ []) :
    pyStripList (N ++ (':' :: ' ' :: V)) = N ++ (':' :: ' ' :: V) := by
  rcases List.eq_nil_or_concat V with rfl | ⟨V', y, rfl⟩
  · exact absurd rfl hVne
  · simp only [List.concat_eq_append] at hV hVne ⊢
    have hy : isPyWS y = false := by
      have hrd := trimmed_reverse_dropWhile hV
      rw [show (V' ++ [y]).reverse = y :: V'.reverse from by simp] at hrd
      by_contra hyy
      have hy' : isPyWS y = true := by
        cases hb : isPyWS y
        · exact absurd hb hyy
        · rfl
      rw [List.dropWhile_cons, hy', if_pos rfl] at hrd
      have hle : (V'.reverse.dropWhile isPyWS).length ≤ V'.reverse.length :=
        (List.dropWhile_suffix isPyWS).sublist.length_le
      have h2 := congrArg List.length hrd
      simp at h2 hle
      omega
    cases N with
    | nil =>
      have := pyStripList_ends (x := ':') (y := y) (by decide) hy (' ' :: V')
      simpa using this
    | cons x t =>
      have hx : isPyWS x = false := trimmed_head hN
      have := pyStripList_ends (x := x) (y := y) hx hy (t ++ (':' :: ' ' :: V'))
      simp only [List.cons_append, List.append_assoc] at this ⊢
      simpa using this

theorem parseDeclChunk_line {d : Decl} (hd : declWF d) {lead : List Char}
    (hlead : ∀ c ∈ lead, isPyWS c = true) :
    parseDeclChunk (lead ++ (d.1.data ++ (':' :: ' ' :: d.2.data))) = some d := by
  obtain ⟨hn1, hn2, hv1, hv2⟩ := hd
  have hNdata := trimmedS_data hn1
  have hVdata := trimmedS_data hv1
  simp only [parseDeclChunk]
  rcases hvd : d.2.data with _ | ⟨v0, vt⟩
  · -- empty value: the chunk is lead ++ name ++ ": " and strips to name ++ ":"
    have htrim : pyStripList (lead ++ (d.1.data ++ (':' :: ' ' :: []))) =
        d.1.data ++ [':'] := by
      have hcore : pyStripList (d.1.data ++ [':']) = d.1.data ++ [':'] :=
        trimmed_concat_end hNdata (by decide)
      have := @pyStripList_sandwich lead [' '] (d.1.data ++ [':']) hlead
        (fun c hc => by rcases List.mem_singleton.mp hc with rfl; rfl) hcore
      simp only [List.append_assoc, List.cons_append, List.nil_append] at this
      exact this
    rw [htrim]
    have hspan : spanUntil ':' (d.1.data ++ [':']) = (d.1.data, [':']) :=
      spanUntil_hit (fun x hx => fun e => by
        have := hn2 x hx
        simp [e] at this) []
    rw [hspan]
    rw [if_neg (by simp)]
    show some (strOf (pyStripList d.1.data), strOf (pyStripList ([] : List Char))) = some d
    rw [hNdata, strOf_data]
    have h2 : strOf [] = d.2 := by
      have := strOf_data d.2
      rw [hvd] at this
      exact this
    show some (d.1, strOf []) = some d
    rw [h2]
  · -- nonempty value
    rw [← hvd]
    have htrim : pyStripList (lead ++ (d.1.data ++ (':' :: ' ' :: d.2.data))) =
        d.1.data ++ (':' :: ' ' :: d.2.data) := by
      have hcore := trimmed_decl_core hNdata hVdata (by rw [hvd]; simp)
      have := @pyStripList_sandwich lead [] (d.1.data ++ (':' :: ' ' :: d.2.data)) hlead
        (fun c hc => absurd hc (List.not_mem_nil c)) hcore
      simpa using this
    rw [htrim]
    have hspan : spanUntil ':' (d.1.data ++ (':' :: ' ' :: d.2.data)) =
        (d.1.data, ':' :: ' ' :: d.2.data) :=
      spanUntil_hit (fun x hx => fun e => by
        have := hn2 x hx
        simp [e] at this) _
    rw [hspan]
    rw [if_neg (by simp)]
    show some (strOf (pyStripList d.1.data), strOf (pyStripList (' ' :: d.2.data))) = some d
    rw [hNdata, strOf_data]
    rw [pyStripList_cons_ws (by rfl) hVdata, strOf_data]

theorem parseDecls_ws {body : List Char} (h : ∀ c ∈ body, isPyWS c = true) :
    parseDecls body = [] := by
  unfold parseDecls
  rw [splitOnChar_miss (fun hm => absurd (h ';' hm) (by decide))]
  simp [parseDeclChunk_ws h]

theorem semi_not_mem_chunk {lead : List Char} {IND : String} {d : Decl}
    (hl : ∀ c ∈ lead, isPyWS c = true) (hIND : ∀ c ∈ IND.data, isPyWS c = true)
    (hn2 : noCharIn d.1 [':', ';', '\x7b', '\x7d'])
    (hv2 : noCharIn d.2 [';', '\x7b', '\x7d']) :
    ';' ∉ (lead ++ IND.data) ++ (d.1.data ++ (':' :: ' ' :: d.2.data)) := by
  intro hm
  rcases List.mem_append.mp hm with h1 | h1
  · rcases List.mem_append.mp h1 with h2 | h2
    · exact absurd (hl _ h2) (by decide)
    · exact absurd (hIND _ h2) (by decide)
  · rcases List.mem_append.mp h1 with h2 | h2
    · exact (hn2 _ h2) (by decide)
    · rcases List.mem_cons.mp h2 with he | h3
      · exact absurd he (by decide)
      · rcases List.mem_cons.mp h3 with he | h4
        · exact absurd he (by decide)
        · exact (hv2 _ h4) (by decide)

theorem parseDecls_round {IND : String} (hIND : ∀ c ∈ IND.data, isPyWS c = true) :
    ∀ {ds : List Decl}, (∀ d ∈ ds, declWF d) →
      ∀ {lead wsTail : List Char}, (∀ c ∈ lead, isPyWS c = true) →
        (∀ c ∈ wsTail, isPyWS c = true) →
        parseDecls (lead ++ ((joinNL (ds.map (declLine IND))).data ++ wsTail)) = ds := by
  intro ds
  induction ds with
  | nil =>
    intro _ lead wsTail hl hw
    show parseDecls (lead ++ ((joinNL []).data ++ wsTail)) = []
    rw [show (joinNL []).data = [] from rfl, List.nil_append]
    exact parseDecls_ws (fun c hc => (List.mem_append.mp hc).elim (hl c) (hw c))
  | cons d rest ih =>
    intro hwf lead wsTail hl hw
    obtain ⟨hn1, hn2, hv1, hv2⟩ := hwf d (List.mem_cons_self d rest)
    have hlead₂ : ∀ c ∈ lead ++ IND.data, isPyWS c = true :=
      fun c hc => (List.mem_append.mp hc).elim (hl c) (hIND c)
    have hnsemi := semi_not_mem_chunk hl hIND hn2 hv2
    cases rest with
    | nil =>
      have e1 : lead ++ ((joinNL ([d].map (declLine IND))).data ++ wsTail) =
          ((lead ++ IND.data) ++ (d.1.data ++ (':' :: ' ' :: d.2.data))) ++ ';' :: wsTail := by
        simp [joinNL, joinS, declLine, String.data_append]
      rw [e1]
      show (splitOnChar ';' _).filterMap parseDeclChunk = [d]
      rw [splitOnChar_hit hnsemi wsTail]
      rw [splitOnChar_miss (fun hm => absurd (hw _ hm) (by decide))]
      simp only [List.filterMap_cons, List.filterMap_nil,
        parseDeclChunk_line ⟨hn1, hn2, hv1, hv2⟩ hlead₂, parseDeclChunk_ws hw]
    | cons d2 rest2 =>
      have e1 : lead ++ ((joinNL ((d :: d2 :: rest2).map (declLine IND))).data ++ wsTail) =
          ((lead ++ IND.data) ++ (d.1.data ++ (':' :: ' ' :: d.2.data))) ++ ';' ::
            ('\n' :: ((joinNL ((d2 :: rest2).map (declLine IND))).data ++ wsTail)) := by
        simp [joinNL, joinS, declLine, String.data_append]
      rw [e1]
      show (splitOnChar ';' _).filterMap parseDeclChunk = d :: d2 :: rest2
      rw [splitOnChar_hit hnsemi _]
      simp only [List.filterMap_cons,
        parseDeclChunk_line ⟨hn1, hn2, hv1, hv2⟩ hlead₂]
      show d :: parseDecls ('\n' :: ((joinNL ((d2 :: rest2).map (declLine IND))).data ++ wsTail)) =
        d :: d2 :: rest2
      have hrec : parseDecls (['\n'] ++
          ((joinNL ((d2 :: rest2).map (declLine IND))).data ++ wsTail)) = d2 :: rest2 :=
        ih (fun d' hd' => hwf d' (List.mem_cons_of_mem d hd')) (by decide) hw
      rw [show ('\n' :: ((joinNL ((d2 :: rest2).map (declLine IND))).data ++ wsTail)) =
        ['\n'] ++ ((joinNL ((d2 :: rest2).map (declLine IND))).data ++ wsTail) from rfl]
      rw [hrec]

theorem splitBlock_skip {m : List Char} (h7b : '\x7b' ∉ m) (h7d : '\x7d' ∉ m) :
    ∀ (d : Nat) (x : List Char),
      splitBlock d (m ++ x) = Option.map (fun p => (m ++ p.1, p.2)) (splitBlock d x) := by
  induction m with
  | nil =>
    intro d x
    show splitBlock d x = Option.map (fun p => ([] ++ p.1, p.2)) (splitBlock d x)
    cases splitBlock d x <;> simp
  | cons c t ih =>
    intro d x
    have hc7b : ¬ c = '\x7b' := fun e => h7b (e ▸ List.mem_cons_self c t)
    have hc7d : ¬ c = '\x7d' := fun e => h7d (e ▸ List.mem_cons_self c t)
    show splitBlock d (c :: (t ++ x)) = _
    simp only [splitBlock]
    rw [if_neg hc7d, if_neg hc7b]
    rw [ih (fun hm => h7b (List.mem_cons_of_mem c hm))
      (fun hm => h7d (List.mem_cons_of_mem c hm)) d x]
    cases splitBlock d x <;> simp

theorem splitBlock_close (b : List Char) : splitBlock 0 ('\x7d' :: b) = some ([], b) := by
  simp [splitBlock]

theorem splitBlock_open {m : List Char} (h7b : '\x7b' ∉ m) (h7d : '\x7d' ∉ m)
    (rest : List Char) :
    splitBlock 0 ('\x7b' :: (m ++ '\x7d' :: rest)) =
      Option.map (fun p => ('\x7b' :: (m ++ '\x7d' :: p.1), p.2)) (splitBlock 0 rest) := by
  show splitBlock 0 ('\x7b' :: (m ++ '\x7d' :: rest)) = _
  simp only [splitBlock]
  rw [if_pos trivial]
  rw [show (0 + 1 : Nat) = 1 from rfl]
  rw [splitBlock_skip h7b h7d 1 ('\x7d' :: rest)]
  rw [show splitBlock 1 ('\x7d' :: rest) =
    Option.map (fun p => ('\x7d' :: p.1, p.2)) (splitBlock 0 rest) from by simp [splitBlock]]
  cases splitBlock 0 rest <;> simp

theorem splitBlock_blocks : ∀ {blocks : List String},
    (∀ b ∈ blocks, ∃ pre mid, ('\x7b' ∉ pre ∧ '\x7d' ∉ pre ∧ '\x7b' ∉ mid ∧ '\x7d' ∉ mid) ∧
      b.data = pre ++ ('\x7b' :: (mid ++ ['\x7d']))) →
    ∀ rest : List Char,
      splitBlock 0 ('\n' :: ((joinNL blocks).data ++ ('\n' :: '\x7d' :: rest))) =
        some ('\n' :: ((joinNL blocks).data ++ ['\n']), rest) := by
  intro blocks
  induction blocks with
  | nil =>
    intro _ rest
    have h0 := splitBlock_skip (m := ['\n', '\n']) (by decide) (by decide) 0 ('\x7d' :: rest)
    rw [splitBlock_close] at h0
    show splitBlock 0 ('\n' :: ((joinNL []).data ++ ('\n' :: '\x7d' :: rest))) =
      some ('\n' :: ((joinNL []).data ++ ['\n']), rest)
    rw [show (joinNL []).data = [] from rfl]
    simpa using h0
  | cons b bs ih =>
    intro h rest
    obtain ⟨pre, mid, ⟨hb1, hb2, hb3, hb4⟩, hdata⟩ := h b (List.mem_cons_self b bs)
    have hpre : '\x7b' ∉ '\n' :: pre ∧ '\x7d' ∉ '\n' :: pre := by
      constructor
      · intro hm
        rcases List.mem_cons.mp hm with he | hm'
        · exact absurd he (by decide)
        · exact hb1 hm'
      · intro hm
        rcases List.mem_cons.mp hm with he | hm'
        · exact absurd he (by decide)
        · exact hb2 hm'
    cases bs with
    | nil =>
      have e1 : '\n' :: ((joinNL [b]).data ++ ('\n' :: '\x7d' :: rest)) =
          ('\n' :: pre) ++ ('\x7b' :: (mid ++ '\x7d' :: ('\n' :: '\x7d' :: rest))) := by
        rw [show joinNL [b] = b from rfl, hdata]
        simp
      rw [e1]
      rw [splitBlock_skip hpre.1 hpre.2 0 _]
      rw [splitBlock_open hb3 hb4 _]
      have e2 : splitBlock 0 ('\n' :: '\x7d' :: rest) = some (['\n'], rest) := by
        have := splitBlock_skip (m := ['\n']) (by decide) (by decide) 0 ('\x7d' :: rest)
        rw [splitBlock_close] at this
        simpa using this
      rw [e2]
      show some (('\n' :: pre) ++ ('\x7b' :: (mid ++ '\x7d' :: ['\n'])), rest) =
        some ('\n' :: ((joinNL [b]).data ++ ['\n']), rest)
      rw [show joinNL [b] = b from rfl, hdata]
      simp
    | cons b2 bs2 =>
      have hJ : (joinNL (b :: b2 :: bs2)).data =
          b.data ++ ('\n' :: (joinNL (b2 :: bs2)).data) := by
        show (b ++ "\n" ++ joinS "\n" (b2 :: bs2)).data = _
        simp [String.data_append, joinNL]
      have e1 : '\n' :: ((joinNL (b :: b2 :: bs2)).data ++ ('\n' :: '\x7d' :: rest)) =
          ('\n' :: pre) ++ ('\x7b' :: (mid ++ '\x7d' ::
            ('\n' :: ((joinNL (b2 :: bs2)).data ++ ('\n' :: '\x7d' :: rest))))) := by
        rw [hJ, hdata]
        simp
      rw [e1]
      rw [splitBlock_skip hpre.1 hpre.2 0 _]
      rw [splitBlock_open hb3 hb4 _]
      rw [ih (fun b' hb' => h b' (List.mem_cons_of_mem b hb')) rest]
      show some (('\n' :: pre) ++ ('\x7b' :: (mid ++ '\x7d' ::
          ('\n' :: ((joinNL (b2 :: bs2)).data ++ ['\n'])))), rest) =
        some ('\n' :: ((joinNL (b :: b2 :: bs2)).data ++ ['\n']), rest)
      rw [hJ, hdata]
      simp

theorem notMem_joinNL {c : Char} (hc : ¬ c = '\n') : ∀ {ls : List String},
    (∀ s ∈ ls, c ∉ s.data) → c ∉ (joinNL ls).data := by
  intro ls
  induction ls with
  | nil => intro _; simp [joinNL, joinS]
  | cons x t ih =>
    intro h
    cases t with
    | nil => exact h x (List.mem_singleton.mpr rfl)
    | cons y t2 =>
      show c ∉ (x ++ "\n" ++ joinS "\n" (y :: t2)).data
      intro hm
      simp only [String.data_append, List.mem_append] at hm
      rcases hm with (hm | hm) | hm
      · exact h x (List.mem_cons_self x _) hm
      · rcases List.mem_singleton.mp hm with rfl
        exact hc rfl
      · exact ih (fun s hs => h s (List.mem_cons_of_mem x hs)) hm

theorem brace_not_mem_decl_lines {IND : String} (hIND : ∀ c ∈ IND.data, isPyWS c = true)
    {ds : List Decl} (hds : ∀ d ∈ ds, declWF d) {c : Char}
    (hc : c = '\x7b' ∨ c = '\x7d') :
    c ∉ (joinNL (ds.map (declLine IND))).data := by
  apply notMem_joinNL (by rcases hc with rfl | rfl <;> decide)
  intro s hs
  obtain ⟨d, hd, rfl⟩ := List.mem_map.mp hs
  obtain ⟨_, hn2, _, hv2⟩ := hds d hd
  intro hm
  rw [show (declLine IND d).data =
    IND.data ++ (d.1.data ++ (':' :: ' ' :: (d.2.data ++ [';']))) from by
      simp [declLine, String.data_append]] at hm
  rcases List.mem_append.mp hm with h1 | h1
  · exact absurd (hIND c h1) (by rcases hc with rfl | rfl <;> decide)
  rcases List.mem_append.mp h1 with h2 | h2
  · exact (hn2 c h2) (by rcases hc with rfl | rfl <;> simp)
  rcases List.mem_cons.mp h2 with he | h3
  · exact absurd he (by rcases hc with rfl | rfl <;> decide)
  rcases List.mem_cons.mp h3 with he | h4
  · exact absurd he (by rcases hc with rfl | rfl <;> decide)
  rcases List.mem_append.mp h4 with h5 | h5
  · exact (hv2 c h5) (by rcases hc with rfl | rfl <;> simp)
  · rcases List.mem_singleton.mp h5 with rfl
    rcases hc with h | h <;> exact absurd h (by decide)

theorem parseDecls_nil : parseDecls [] = [] := rfl

theorem parseBlocksF_ws {l : List Char} (h : ∀ c ∈ l, isPyWS c = true) :
    ∀ fuel : Nat, parseBlocksF fuel l = [] := by
  intro fuel
  cases fuel with
  | zero => rfl
  | succ g =>
    simp only [parseBlocksF]
    rw [allWS_dropWhile_nil h]
    rw [spanUntil_miss (fun x hx => absurd hx (List.not_mem_nil x))]
    rw [if_pos rfl]

theorem parseBlocksF_step {kt : String} (hkt1 : pyStrip kt = kt)
    (hkt2 : '\x7b' ∉ kt.data) {w : List Char} (hw : ∀ c ∈ w, isPyWS c = true)
    {body rest : List Char} (hbody : '\x7d' ∉ body) (g : Nat) :
    parseBlocksF (g + 1) (w ++ (kt.data ++ (' ' :: '\x7b' :: (body ++ ('\x7d' :: rest))))) =
      (kt, parseDecls body) :: parseBlocksF g rest := by
  have hktd := trimmedS_data hkt1
  simp only [parseBlocksF]
  rw [allWS_dropWhile hw]
  rcases hk : kt.data with _ | ⟨k0, kt'⟩
  · -- empty keyText: the whitespace drop eats the separating space too
    rw [List.nil_append]
    rw [show (' ' :: '\x7b' :: (body ++ ('\x7d' :: rest))).dropWhile isPyWS =
      '\x7b' :: (body ++ ('\x7d' :: rest)) from by
        rw [List.dropWhile_cons, if_pos (show isPyWS ' ' = true from by decide)]
        exact dropWhile_ws_cons_neg (by decide)]
    rw [show spanUntil '\x7b' ('\x7b' :: (body ++ ('\x7d' :: rest))) =
      ([], '\x7b' :: (body ++ ('\x7d' :: rest))) from by
        have := spanUntil_hit (c := '\x7b') (a := [])
          (fun x hx => absurd hx (List.not_mem_nil x)) (body ++ ('\x7d' :: rest))
        simpa using this]
    rw [if_neg (by simp)]
    show (if (spanUntil '\x7d' (body ++ ('\x7d' :: rest))).2 = [] then []
      else (strOf (pyStripList []),
        parseDecls (spanUntil '\x7d' (body ++ ('\x7d' :: rest))).1) ::
        parseBlocksF g (spanUntil '\x7d' (body ++ ('\x7d' :: rest))).2.tail) =
      (kt, parseDecls body) :: parseBlocksF g rest
    rw [spanUntil_hit (fun x hx => fun e => hbody (by rw [← e]; exact hx)) rest]
    rw [if_neg (by simp)]
    show (strOf (pyStripList []), parseDecls body) :: parseBlocksF g rest = _
    rw [show pyStripList [] = [] from rfl]
    rw [show strOf [] = kt from by rw [← strOf_data kt, hk]]
  · -- nonempty keyText
    rw [← hk]
    have hk0 : isPyWS k0 = false := trimmed_head (hk ▸ hktd)
    rw [show (kt.data ++ (' ' :: '\x7b' :: (body ++ ('\x7d' :: rest)))).dropWhile isPyWS =
      kt.data ++ (' ' :: '\x7b' :: (body ++ ('\x7d' :: rest))) from by
        rw [hk]
        exact dropWhile_ws_cons_neg hk0]
    have e1 : kt.data ++ (' ' :: '\x7b' :: (body ++ ('\x7d' :: rest))) =
        (kt.data ++ [' ']) ++ '\x7b' :: (body ++ ('\x7d' :: rest)) := by simp
    rw [e1]
    rw [spanUntil_hit (fun x hx => fun e => by
      rcases List.mem_append.mp hx with h1 | h1
      · exact hkt2 (e ▸ h1)
      · rcases List.mem_singleton.mp h1 with rfl
        exact absurd e (by decide)) _]
    rw [if_neg (by simp)]
    show (if (spanUntil '\x7d' (body ++ ('\x7d' :: rest))).2 = [] then []
      else (strOf (pyStripList (kt.data ++ [' '])),
        parseDecls (spanUntil '\x7d' (body ++ ('\x7d' :: rest))).1) ::
        parseBlocksF g (spanUntil '\x7d' (body ++ ('\x7d' :: rest))).2.tail) =
      (kt, parseDecls body) :: parseBlocksF g rest
    rw [spanUntil_hit (fun x hx => fun e => hbody (by rw [← e]; exact hx)) rest]
    rw [if_neg (by simp)]
    show (strOf (pyStripList (kt.data ++ [' '])), parseDecls body) :: parseBlocksF g rest = _
    rw [pyStripList_trimmed_post
      (fun c hc => by rcases List.mem_singleton.mp hc with rfl; rfl) hktd]
    rw [strOf_data]

theorem frames_round : ∀ {frames : List Frame}, (∀ f ∈ frames, frameWF f) →
    ∀ {w : List Char}, (∀ c ∈ w, isPyWS c = true) →
      ∀ {fuel : Nat}, frames.length + 1 ≤ fuel →
        parseBlocksF fuel
          (w ++ ((joinNL (frames.map (frameBlock "    "))).data ++ ['\n'])) = frames := by
  intro frames
  induction frames with
  | nil =>
    intro _ w hw fuel _
    apply parseBlocksF_ws
    intro c hc
    rcases List.mem_append.mp hc with h1 | h1
    · exact hw c h1
    rcases List.mem_append.mp h1 with h2 | h2
    · rw [show (joinNL (List.map (frameBlock "    ") [])).data = [] from rfl] at h2
      exact absurd h2 (List.not_mem_nil c)
    · rcases List.mem_singleton.mp h2 with rfl; rfl
  | cons f0 rest ih =>
    intro hwf w hw fuel hfuel
    obtain ⟨hkt1, hkt2, hds⟩ := hwf f0 (List.mem_cons_self f0 rest)
    obtain ⟨g, rfl⟩ : ∃ g, fuel = g + 1 := ⟨fuel - 1, by omega⟩
    have hIND8 : ∀ c ∈ ("    " ++ "    " : String).data, isPyWS c = true := by decide
    have hkt2' : '\x7b' ∉ f0.1.data := fun hm => (hkt2 _ hm) (by simp)
    have hbody : '\x7d' ∉ '\n' ::
        ((joinNL (f0.2.map (declLine ("    " ++ "    ")))).data ++
          ('\n' :: [' ', ' ', ' ', ' '])) := by
      intro hm
      rcases List.mem_cons.mp hm with he | h1
      · exact absurd he (by decide)
      rcases List.mem_append.mp h1 with h2 | h2
      · exact brace_not_mem_decl_lines hIND8 hds (Or.inr rfl) h2
      · rcases List.mem_cons.mp h2 with he | h3
        · exact absurd he (by decide)
        · exact absurd h3 (by decide)
    have hpd : parseDecls ('\n' ::
        ((joinNL (f0.2.map (declLine ("    " ++ "    ")))).data ++
          ('\n' :: [' ', ' ', ' ', ' ']))) = f0.2 := by
      have : parseDecls (['\n'] ++
          ((joinNL (f0.2.map (declLine ("    " ++ "    ")))).data ++
            ('\n' :: [' ', ' ', ' ', ' ']))) = f0.2 :=
        parseDecls_round hIND8 hds (by decide) (by decide)
      exact this
    have hw4 : ∀ c ∈ w ++ [' ', ' ', ' ', ' '], isPyWS c = true := by
      intro c hc
      rcases List.mem_append.mp hc with h1 | h1
      · exact hw c h1
      · simp only [List.mem_cons, List.not_mem_nil, or_false] at h1
        rcases h1 with rfl | rfl | rfl | rfl <;> rfl
    cases rest with
    | nil =>
      have e1 : w ++ ((joinNL ([f0].map (frameBlock "    "))).data ++ ['\n']) =
          (w ++ [' ', ' ', ' ', ' ']) ++ (f0.1.data ++ (' ' :: '\x7b' ::
            (('\n' :: ((joinNL (f0.2.map (declLine ("    " ++ "    ")))).data ++
              ('\n' :: [' ', ' ', ' ', ' ']))) ++ ('\x7d' :: ['\n'])))) := by
        rw [show joinNL ([f0].map (frameBlock "    ")) = frameBlock "    " f0 from rfl]
        show w ++ ((frameBlock "    " f0).data ++ ['\n']) = _
        simp [frameBlock, String.data_append]
      rw [e1]
      rw [parseBlocksF_step hkt1 hkt2' hw4 hbody g]
      rw [hpd]
      rw [parseBlocksF_ws (by decide) g]
    | cons f1 rest2 =>
      have e1 : w ++ ((joinNL ((f0 :: f1 :: rest2).map (frameBlock "    "))).data ++ ['\n']) =
          (w ++ [' ', ' ', ' ', ' ']) ++ (f0.1.data ++ (' ' :: '\x7b' ::
            (('\n' :: ((joinNL (f0.2.map (declLine ("    " ++ "    ")))).data ++
              ('\n' :: [' ', ' ', ' ', ' ']))) ++ ('\x7d' ::
                ('\n' :: ((joinNL ((f1 :: rest2).map (frameBlock "    "))).data ++ ['\n'])))))) := by
        show w ++ ((frameBlock "    " f0 ++ "\n" ++
          joinS "\n" ((f1 :: rest2).map (frameBlock "    "))).data ++ ['\n']) = _
        simp [frameBlock, String.data_append, joinNL]
      rw [e1]
      rw [parseBlocksF_step hkt1 hkt2' hw4 hbody g]
      rw [hpd]
      have hrec : parseBlocksF g (['\n'] ++
          ((joinNL ((f1 :: rest2).map (frameBlock "    "))).data ++ ['\n'])) =
          f1 :: rest2 :=
        ih (fun f hf => hwf f (List.mem_cons_of_mem f0 hf))
          (by decide) (by simp at hfuel ⊢; omega)
      rw [show ('\n' :: ((joinNL ((f1 :: rest2).map (frameBlock "    "))).data ++ ['\n'])) =
        ['\n'] ++ ((joinNL ((f1 :: rest2).map (frameBlock "    "))).data ++ ['\n']) from rfl]
      rw [hrec]

theorem inner_pairs : ∀ {inner : List MediaInner}, (∀ i ∈ inner, innerWF i) →
    ∃ ps : List (String × List Decl),
      inner = ps.map (fun p => MediaInner.styleInner p.1 p.2) ∧
      ∀ p ∈ ps, pyStrip p.1 = p.1 ∧ noCharIn p.1 ['\x7b', '\x7d'] ∧ ∀ d ∈ p.2, declWF d := by
  intro inner
  induction inner with
  | nil => intro _; exact ⟨[], rfl, fun p hp => absurd hp (List.not_mem_nil p)⟩
  | cons i rest ih =>
    intro h
    cases i with
    | otherInner raw => exact (h _ (List.mem_cons_self _ _)).elim
    | styleInner s ds =>
      obtain ⟨hs1, hs2, hds⟩ := h _ (List.mem_cons_self _ _)
      obtain ⟨ps, hrest, hps⟩ := ih (fun i hi => h i (List.mem_cons_of_mem _ hi))
      refine ⟨(s, ds) :: ps, ?_, ?_⟩
      · rw [List.map_cons, ← hrest]
      · intro p hp
        rcases List.mem_cons.mp hp with rfl | hp'
        · exact ⟨hs1, hs2, hds⟩
        · exact hps p hp'

theorem filterMap_style_map (ps : List (String × List Decl)) :
    (ps.map (fun p => MediaInner.styleInner p.1 p.2)).filterMap (fun r => match r with
      | MediaInner.styleInner sel ds =>
          some ("    " ++ format_css_rule sel ds ("    " ++ "    "))
      | MediaInner.otherInner _ => none) =
    ps.map (fun p => "    " ++ format_css_rule p.1 p.2 ("    " ++ "    ")) := by
  induction ps with
  | nil => rfl
  | cons p rest ih => simp only [List.map_cons, List.filterMap_cons, ih]

theorem innerBlock_shape {s : String} {ds : List Decl} (hs1 : pyStrip s = s)
    (hds : ∀ d ∈ ds, declWF d) :
    ∃ body : List Char,
      ("    " ++ format_css_rule s ds ("    " ++ "    ")).data =
        [' ', ' ', ' ', ' '] ++ (s.data ++ (' ' :: '\x7b' :: (body ++ ['\x7d']))) ∧
      '\x7b' ∉ body ∧ '\x7d' ∉ body ∧ parseDecls body = ds := by
  have hIND8 : ∀ c ∈ ("    " ++ "    " : String).data, isPyWS c = true := by decide
  cases ds with
  | nil =>
    refine ⟨[], ?_, by simp, by simp, parseDecls_nil⟩
    show ("    " ++ format_css_rule s [] ("    " ++ "    ")).data = _
    simp [format_css_rule, hs1, String.data_append]
  | cons d ds' =>
    refine ⟨'\n' :: ((joinNL ((d :: ds').map (declLine ("    " ++ "    ")))).data ++ ['\n']),
      ?_, ?_, ?_, ?_⟩
    · show ("    " ++ format_css_rule s (d :: ds') ("    " ++ "    ")).data = _
      simp [format_css_rule, hs1, String.data_append, joinNL]
    · intro hm
      rcases List.mem_cons.mp hm with he | h1
      · exact absurd he (by decide)
      rcases List.mem_append.mp h1 with h2 | h2
      · exact brace_not_mem_decl_lines hIND8 hds (Or.inl rfl) h2
      · exact absurd (List.mem_singleton.mp h2) (by decide)
    · intro hm
      rcases List.mem_cons.mp hm with he | h1
      · exact absurd he (by decide)
      rcases List.mem_append.mp h1 with h2 | h2
      · exact brace_not_mem_decl_lines hIND8 hds (Or.inr rfl) h2
      · exact absurd (List.mem_singleton.mp h2) (by decide)
    · exact (show parseDecls (['\n'] ++
          ((joinNL ((d :: ds').map (declLine ("    " ++ "    ")))).data ++ ['\n'])) =
          d :: ds' from parseDecls_round hIND8 hds (by decide) (by decide))

theorem innersPairs_round : ∀ {ps : List (String × List Decl)},
    (∀ p ∈ ps, pyStrip p.1 = p.1 ∧ noCharIn p.1 ['\x7b', '\x7d'] ∧ ∀ d ∈ p.2, declWF d) →
    ∀ {w : List Char}, (∀ c ∈ w, isPyWS c = true) →
      ∀ {fuel : Nat}, ps.length + 1 ≤ fuel →
        parseBlocksF fuel (w ++ ((joinNL (ps.map
          (fun p => "    " ++ format_css_rule p.1 p.2 ("    " ++ "    ")))).data ++ ['\n'])) =
          ps := by
  intro ps
  induction ps with
  | nil =>
    intro _ w hw fuel _
    apply parseBlocksF_ws
    intro c hc
    rcases List.mem_append.mp hc with h1 | h1
    · exact hw c h1
    rcases List.mem_append.mp h1 with h2 | h2
    · rw [show (joinNL (List.map
        (fun p => "    " ++ format_css_rule p.1 p.2 ("    " ++ "    "))
        ([] : List (String × List Decl)))).data = [] from rfl] at h2
      exact absurd h2 (List.not_mem_nil c)
    · rcases List.mem_singleton.mp h2 with rfl; rfl
  | cons p0 rest ih =>
    intro hwf w hw fuel hfuel
    obtain ⟨hs1, hs2, hds⟩ := hwf p0 (List.mem_cons_self p0 rest)
    obtain ⟨g, rfl⟩ : ∃ g, fuel = g + 1 := ⟨fuel - 1, by omega⟩
    obtain ⟨body, hA, hb7, hnb, hpd⟩ := innerBlock_shape hs1 hds
    have hs2' : '\x7b' ∉ p0.1.data := fun hm => (hs2 _ hm) (by simp)
    have hw4 : ∀ c ∈ w ++ [' ', ' ', ' ', ' '], isPyWS c = true := by
      intro c hc
      rcases List.mem_append.mp hc with h1 | h1
      · exact hw c h1
      · simp only [List.mem_cons, List.not_mem_nil, or_false] at h1
        rcases h1 with rfl | rfl | rfl | rfl <;> rfl
    cases rest with
    | nil =>
      have e1 : w ++ ((joinNL ([p0].map
          (fun p => "    " ++ format_css_rule p.1 p.2 ("    " ++ "    ")))).data ++ ['\n']) =
          (w ++ [' ', ' ', ' ', ' ']) ++ (p0.1.data ++ (' ' :: '\x7b' ::
            (body ++ ('\x7d' :: ['\n'])))) := by
        rw [show joinNL ([p0].map
          (fun p => "    " ++ format_css_rule p.1 p.2 ("    " ++ "    "))) =
          "    " ++ format_css_rule p0.1 p0.2 ("    " ++ "    ") from rfl]
        rw [hA]
        simp
      rw [e1]
      rw [parseBlocksF_step hs1 hs2' hw4 hnb g]
      rw [hpd]
      rw [parseBlocksF_ws (by decide) g]
    | cons p1 rest2 =>
      have e1 : w ++ ((joinNL ((p0 :: p1 :: rest2).map
          (fun p => "    " ++ format_css_rule p.1 p.2 ("    " ++ "    ")))).data ++ ['\n']) =
          (w ++ [' ', ' ', ' ', ' ']) ++ (p0.1.data ++ (' ' :: '\x7b' ::
            (body ++ ('\x7d' :: ('\n' :: ((joinNL ((p1 :: rest2).map
              (fun p => "    " ++ format_css_rule p.1 p.2 ("    " ++ "    ")))).data ++
                ['\n'])))))) := by
        rw [show joinNL ((p0 :: p1 :: rest2).map
          (fun p => "    " ++ format_css_rule p.1 p.2 ("    " ++ "    "))) =
          ("    " ++ format_css_rule p0.1 p0.2 ("    " ++ "    ")) ++ "\n" ++
            joinNL ((p1 :: rest2).map
              (fun p => "    " ++ format_css_rule p.1 p.2 ("    " ++ "    "))) from rfl]
        rw [show (("    " ++ format_css_rule p0.1 p0.2 ("    " ++ "    ")) ++ "\n" ++
          joinNL ((p1 :: rest2).map
            (fun p => "    " ++ format_css_rule p.1 p.2 ("    " ++ "    ")))).data =
          ("    " ++ format_css_rule p0.1 p0.2 ("    " ++ "    ")).data ++
            ('\n' :: (joinNL ((p1 :: rest2).map
              (fun p => "    " ++ format_css_rule p.1 p.2 ("    " ++ "    ")))).data) from by
          simp [String.data_append]]
        rw [hA]
        simp
      rw [e1]
      rw [parseBlocksF_step hs1 hs2' hw4 hnb g]
      rw [hpd]
      have hrec : parseBlocksF g (['\n'] ++ ((joinNL ((p1 :: rest2).map
          (fun p => "    " ++ format_css_rule p.1 p.2 ("    " ++ "    ")))).data ++ ['\n'])) =
          p1 :: rest2 :=
        ih (fun p hp => hwf p (List.mem_cons_of_mem p0 hp))
          (by decide) (by simp at hfuel ⊢; omega)
      rw [show ('\n' :: ((joinNL ((p1 :: rest2).map
        (fun p => "    " ++ format_css_rule p.1 p.2 ("    " ++ "    ")))).data ++ ['\n'])) =
        ['\n'] ++ ((joinNL ((p1 :: rest2).map
          (fun p => "    " ++ format_css_rule p.1 p.2 ("    " ++ "    ")))).data ++ ['\n'])
        from rfl]
      rw [hrec]

set_option maxHeartbeats 1000000 in
theorem import_chain_round {href : String} (hh : noCharIn href [';', '(', ')', '\x27'])
    (g : Nat) :
    parseRulesF (g + 1) ('@' :: 'i' :: 'm' :: 'p' :: 'o' :: 'r' :: 't' :: ' ' :: 'u' ::
      'r' :: 'l' :: '(' :: '\x27' :: (href.data ++ ['\x27', ')', ';'])) =
    [RuleNode.importRule href] := by
  simp only [parseRulesF]
  rw [dropWhile_ws_cons_neg (by decide)]
  rw [if_neg (by simp)]
  rw [if_pos (show (('@' :: 'i' :: 'm' :: 'p' :: 'o' :: 'r' :: 't' :: ' ' :: 'u' :: 'r' ::
    'l' :: '(' :: '\x27' :: (href.data ++ ['\x27', ')', ';'])).head? = some '@') from rfl)]
  rw [if_pos (show ("@import".data).isPrefixOf ('@' :: 'i' :: 'm' :: 'p' :: 'o' :: 'r' ::
    't' :: ' ' :: 'u' :: 'r' :: 'l' :: '(' :: '\x27' ::
    (href.data ++ ['\x27', ')', ';'])) = true from rfl)]
  have e1 : '@' :: 'i' :: 'm' :: 'p' :: 'o' :: 'r' :: 't' :: ' ' :: 'u' :: 'r' :: 'l' ::
      '(' :: '\x27' :: (href.data ++ ['\x27', ')', ';']) =
      ('@' :: 'i' :: 'm' :: 'p' :: 'o' :: 'r' :: 't' :: ' ' :: 'u' :: 'r' :: 'l' :: '(' ::
        '\x27' :: (href.data ++ ['\x27', ')'])) ++ ';' :: [] := by
    simp
  rw [e1]
  rw [spanUntil_hit (by
    intro x hx
    simp only [List.mem_cons, List.mem_append, List.mem_singleton, List.not_mem_nil,
      or_false] at hx
    rcases hx with rfl | rfl | rfl | rfl | rfl | rfl | rfl | rfl | rfl | rfl | rfl | rfl |
      rfl | hx2 | rfl | rfl
    case _ => decide
    case _ => decide
    case _ => decide
    case _ => decide
    case _ => decide
    case _ => decide
    case _ => decide
    case _ => decide
    case _ => decide
    case _ => decide
    case _ => decide
    case _ => decide
    case _ => decide
    case _ => exact fun e => (hh x hx2) (by rw [e]; decide)
    case _ => decide
    case _ => decide) []]
  rw [if_neg (by simp)]
  have e2 : extractHref ('@' :: 'i' :: 'm' :: 'p' :: 'o' :: 'r' :: 't' :: ' ' :: 'u' ::
      'r' :: 'l' :: '(' :: '\x27' :: (href.data ++ ['\x27', ')'])) = some href := by
    simp only [extractHref]
    have e3 : '@' :: 'i' :: 'm' :: 'p' :: 'o' :: 'r' :: 't' :: ' ' :: 'u' :: 'r' :: 'l' ::
        '(' :: '\x27' :: (href.data ++ ['\x27', ')']) =
        (['@', 'i', 'm', 'p', 'o', 'r', 't', ' ', 'u', 'r', 'l'] : List Char) ++ '(' ::
          ('\x27' :: (href.data ++ ['\x27', ')'])) := by simp
    rw [e3]
    rw [dropWhile_ne_hit (by intro x hx; intro e; revert hx; rw [e]; decide) _]
    rw [if_neg (by simp)]
    show (if (spanUntil ')' ('\x27' :: (href.data ++ ['\x27', ')']))).2 = [] then none
      else some (strOf (stripQuotes (pyStripList
        (spanUntil ')' ('\x27' :: (href.data ++ ['\x27', ')']))).1)))) = some href
    have e4 : '\x27' :: (href.data ++ ['\x27', ')']) =
        ('\x27' :: (href.data ++ ['\x27'])) ++ ')' :: [] := by simp
    rw [e4]
    rw [spanUntil_hit (by
      intro x hx
      simp only [List.mem_cons, List.mem_append, List.mem_singleton, List.not_mem_nil,
        or_false] at hx
      rcases hx with rfl | hx2 | rfl
      case _ => decide
      case _ => exact fun e => (hh x hx2) (by rw [e]; decide)
      case _ => decide) []]
    rw [if_neg (by simp)]
    show some (strOf (stripQuotes (pyStripList ('\x27' :: (href.data ++ ['\x27']))))) =
      some href
    rw [pyStripList_ends (by decide) (by decide) href.data]
    simp only [stripQuotes]
    rw [if_pos ⟨Or.inl trivial, List.getLast?_concat href.data⟩]
    rw [List.dropLast_concat]
    rw [strOf_data]
  rw [e2]
  show RuleNode.importRule href :: parseRulesF g ((';' :: []) : List Char).tail =
    [RuleNode.importRule href]
  rw [show ((';' :: []) : List Char).tail = [] from rfl]
  rw [parseRulesF_empty]

theorem parseCss_import {href : String} (h : ruleWF (.importRule href)) :
    parseCss (formatRule (.importRule href)) = [.importRule href] := by
  have hh : noCharIn href [';', '(', ')', '\x27'] := h
  have hD : (formatRule (.importRule href)).data =
      '@' :: 'i' :: 'm' :: 'p' :: 'o' :: 'r' :: 't' :: ' ' :: 'u' :: 'r' :: 'l' :: '(' ::
        '\x27' :: (href.data ++ ['\x27', ')', ';']) := by
    show ("@import url(\x27" ++ href ++ "\x27);").data = _
    simp [String.data_append]
  show parseRulesF ((formatRule (.importRule href)).data.length + 1)
    (formatRule (.importRule href)).data = [RuleNode.importRule href]
  rw [hD]
  exact import_chain_round hh _

theorem ifb_neg {α : Sort u} {b : Bool} [inst : Decidable (b = true)] (h : b = false)
    (x y : α) : (if b = true then x else y) = y := by
  have hb : ¬ (b = true) := by simp [h]
  exact if_neg hb

set_option maxHeartbeats 1000000 in
theorem style_chain_round {sel : String} {body : List Char} {out : List Decl}
    (hs1 : pyStrip sel = sel) (hs2 : noCharIn sel ['\x7b', '\x7d'])
    (hs3 : sel.data.head? ≠ some '@')
    (hnb : '\x7d' ∉ body) (hpd : parseDecls body = out) (g : Nat) :
    parseRulesF (g + 1) (sel.data ++ (' ' :: '\x7b' :: (body ++ ['\x7d']))) =
      [RuleNode.styleRule sel out] := by
  have hseld := trimmedS_data hs1
  have hs2b : '\x7b' ∉ sel.data := fun hm => (hs2 _ hm) (by simp)
  simp only [parseRulesF]
  rcases hsel : sel.data with _ | ⟨s0, st⟩
  · -- empty selector: whitespace drop eats the separating space
    rw [List.nil_append]
    rw [show (' ' :: '\x7b' :: (body ++ ['\x7d'])).dropWhile isPyWS =
      '\x7b' :: (body ++ ['\x7d']) from by
        rw [List.dropWhile_cons, if_pos (show isPyWS ' ' = true from by decide)]
        exact dropWhile_ws_cons_neg (by decide)]
    rw [if_neg (by simp)]
    rw [if_neg (show ¬ (('\x7b' :: (body ++ ['\x7d'])).head? = some '@') from by
      intro hc
      exact absurd (Option.some_inj.mp hc) (by decide))]
    rw [show spanUntil '\x7b' ('\x7b' :: (body ++ ['\x7d'])) =
      ([], '\x7b' :: (body ++ ['\x7d'])) from by
        have := spanUntil_hit (c := '\x7b') (a := [])
          (fun x hx => absurd hx (List.not_mem_nil x)) (body ++ ['\x7d'])
        simpa using this]
    rw [if_neg (by simp)]
    show (if (spanUntil '\x7d' (body ++ ['\x7d'])).2 = [] then []
      else RuleNode.styleRule (strOf (pyStripList []))
        (parseDecls (spanUntil '\x7d' (body ++ ['\x7d'])).1) ::
        parseRulesF g (spanUntil '\x7d' (body ++ ['\x7d'])).2.tail) =
      [RuleNode.styleRule sel out]
    rw [show body ++ ['\x7d'] = body ++ '\x7d' :: [] from rfl]
    rw [spanUntil_hit (fun x hx => fun e => hnb (by rw [← e]; exact hx)) []]
    rw [if_neg (by simp)]
    show RuleNode.styleRule (strOf (pyStripList [])) (parseDecls body) ::
      parseRulesF g (([] : List Char)) = [RuleNode.styleRule sel out]
    rw [hpd, parseRulesF_empty]
    rw [show pyStripList [] = [] from rfl]
    rw [show strOf [] = sel from by rw [← strOf_data sel, hsel]]
  · -- nonempty selector
    rw [← hsel]
    have hs0 : isPyWS s0 = false := trimmed_head (hsel ▸ hseld)
    rw [show (sel.data ++ (' ' :: '\x7b' :: (body ++ ['\x7d']))).dropWhile isPyWS =
      sel.data ++ (' ' :: '\x7b' :: (body ++ ['\x7d'])) from by
        rw [hsel]
        exact dropWhile_ws_cons_neg hs0]
    rw [if_neg (by rw [hsel]; simp)]
    rw [if_neg (show ¬ ((sel.data ++ (' ' :: '\x7b' :: (body ++ ['\x7d']))).head? = some '@')
      from by
        rw [hsel]
        intro hc
        apply hs3
        rw [hsel]
        exact congrArg some (Option.some_inj.mp hc) )]
    have e1 : sel.data ++ (' ' :: '\x7b' :: (body ++ ['\x7d'])) =
        (sel.data ++ [' ']) ++ '\x7b' :: (body ++ ['\x7d']) := by simp
    rw [e1]
    rw [spanUntil_hit (by
      intro x hx
      rcases List.mem_append.mp hx with h1 | h1
      · exact fun e => hs2b (by rw [← e]; exact h1)
      · rcases List.mem_singleton.mp h1 with rfl
        decide) _]
    rw [if_neg (by simp)]
    show (if (spanUntil '\x7d' (body ++ ['\x7d'])).2 = [] then []
      else RuleNode.styleRule (strOf (pyStripList (sel.data ++ [' '])))
        (parseDecls (spanUntil '\x7d' (body ++ ['\x7d'])).1) ::
        parseRulesF g (spanUntil '\x7d' (body ++ ['\x7d'])).2.tail) =
      [RuleNode.styleRule sel out]
    rw [show body ++ ['\x7d'] = body ++ '\x7d' :: [] from rfl]
    rw [spanUntil_hit (fun x hx => fun e => hnb (by rw [← e]; exact hx)) []]
    rw [if_neg (by simp)]
    show RuleNode.styleRule (strOf (pyStripList (sel.data ++ [' '])))
      (parseDecls body) :: parseRulesF g (([] : List Char)) = [RuleNode.styleRule sel out]
    rw [hpd, parseRulesF_empty]
    rw [pyStripList_trimmed_post
      (fun c hc => by rcases List.mem_singleton.mp hc with rfl; rfl) hseld]
    rw [strOf_data]

theorem parseCss_style {sel : String} {ds : List Decl} (h : ruleWF (.styleRule sel ds)) :
    parseCss (formatRule (.styleRule sel ds)) = [.styleRule sel ds] := by
  obtain ⟨hs1, hs2, hs3, hds⟩ := h
  cases ds with
  | nil =>
    have hD : (formatRule (.styleRule sel [])).data =
        sel.data ++ (' ' :: '\x7b' :: (([] : List Char) ++ ['\x7d'])) := by
      show (format_css_rule sel []).data = _
      simp [format_css_rule, hs1, String.data_append]
    show parseRulesF ((formatRule (.styleRule sel [])).data.length + 1)
      (formatRule (.styleRule sel [])).data = [RuleNode.styleRule sel []]
    rw [hD]
    exact style_chain_round hs1 hs2 hs3 (by simp) parseDecls_nil _
  | cons d ds' =>
    have hIND4 : ∀ c ∈ ("    " : String).data, isPyWS c = true := by decide
    have hD : (formatRule (.styleRule sel (d :: ds'))).data =
        sel.data ++ (' ' :: '\x7b' :: (('\n' ::
          ((joinNL ((d :: ds').map (declLine "    "))).data ++ ['\n'])) ++ ['\x7d'])) := by
      show (format_css_rule sel (d :: ds')).data = _
      simp [format_css_rule, hs1, String.data_append, joinNL]
    show parseRulesF ((formatRule (.styleRule sel (d :: ds'))).data.length + 1)
      (formatRule (.styleRule sel (d :: ds'))).data = [RuleNode.styleRule sel (d :: ds')]
    rw [hD]
    refine style_chain_round hs1 hs2 hs3 ?_ ?_ _
    · intro hm
      rcases List.mem_cons.mp hm with he | h1
      · exact absurd he (by decide)
      rcases List.mem_append.mp h1 with h2 | h2
      · exact brace_not_mem_decl_lines hIND4 hds (Or.inr rfl) h2
      · exact absurd (List.mem_singleton.mp h2) (by decide)
    · exact (show parseDecls (['\n'] ++
          ((joinNL ((d :: ds').map (declLine "    "))).data ++ ['\n'])) =
          d :: ds' from parseDecls_round hIND4 hds (by decide) (by decide))

theorem joinNL_length_ge {ls : List String} (h : ∀ s ∈ ls, 1 ≤ s.data.length) :
    ls.length ≤ (joinNL ls).data.length := by
  induction ls with
  | nil => simp [joinNL, joinS]
  | cons x t ih =>
    cases t with
    | nil => simpa [joinNL, joinS] using h x (List.mem_singleton.mpr rfl)
    | cons y t2 =>
      have hx := h x (List.mem_cons_self x _)
      have ht := ih (fun s hs => h s (List.mem_cons_of_mem x hs))
      show (x :: y :: t2).length ≤ (x ++ "\n" ++ joinS "\n" (y :: t2)).data.length
      have hlen : (x ++ "\n" ++ joinS "\n" (y :: t2)).data.length =
          x.data.length + 1 + (joinNL (y :: t2)).data.length := by
        simp [String.data_append, joinNL]
        omega
      rw [hlen]
      have hl2 : (y :: t2).length ≤ (joinNL (y :: t2)).data.length := ht
      simp only [List.length_cons] at hl2 ⊢
      omega

theorem frameBlock_len (f : Frame) : 1 ≤ (frameBlock "    " f).data.length := by
  show 1 ≤ ("    " ++ f.1 ++ " \x7b\n" ++
    joinNL (f.2.map (declLine ("    " ++ "    "))) ++ "\n" ++ "    " ++ "\x7d").data.length
  simp [String.data_append]

set_option maxHeartbeats 1000000 in
theorem kf_chain_round {name : String} {frames : List Frame}
    (hn1 : pyStrip name = name) (hn2 : noCharIn name ['\x7b', '\x7d'])
    (hwf : ∀ f ∈ frames, frameWF f) (g : Nat) :
    parseRulesF (g + 1) ('@' :: 'k' :: 'e' :: 'y' :: 'f' :: 'r' :: 'a' :: 'm' :: 'e' ::
      's' :: ' ' :: (name.data ++ (' ' :: '\x7b' :: ('\n' ::
        ((joinNL (frames.map (frameBlock "    "))).data ++ ('\n' :: '\x7d' :: [])))))) =
    [RuleNode.keyframesRule name frames] := by
  have hnamed := trimmedS_data hn1
  have hIND8 : ∀ c ∈ ("    " ++ "    " : String).data, isPyWS c = true := by decide
  simp only [parseRulesF]
  rw [dropWhile_ws_cons_neg (by decide)]
  rw [if_neg (by simp)]
  rw [if_pos (by rfl)]
  rw [ifb_neg (by rfl)]
  rw [ifb_neg (by rfl)]
  rw [if_pos (by rfl)]
  rw [show ('@' :: 'k' :: 'e' :: 'y' :: 'f' :: 'r' :: 'a' :: 'm' :: 'e' :: 's' :: ' ' ::
    (name.data ++ (' ' :: '\x7b' :: ('\n' ::
      ((joinNL (frames.map (frameBlock "    "))).data ++ ('\n' :: '\x7d' :: [])))))).drop 10 =
    ' ' :: (name.data ++ (' ' :: '\x7b' :: ('\n' ::
      ((joinNL (frames.map (frameBlock "    "))).data ++ ('\n' :: '\x7d' :: []))))) from rfl]
  have e1 : ' ' :: (name.data ++ (' ' :: '\x7b' :: ('\n' ::
      ((joinNL (frames.map (frameBlock "    "))).data ++ ('\n' :: '\x7d' :: []))))) =
      ((' ' :: name.data) ++ [' ']) ++ '\x7b' :: ('\n' ::
        ((joinNL (frames.map (frameBlock "    "))).data ++ ('\n' :: '\x7d' :: []))) := by
    simp
  rw [e1]
  rw [spanUntil_hit (by
    intro x hx
    rcases List.mem_append.mp hx with h1 | h1
    · rcases List.mem_cons.mp h1 with rfl | h2
      · decide
      · exact fun e => (hn2 x h2) (by rw [e]; decide)
    · rcases List.mem_singleton.mp h1 with rfl
      decide) _]
  rw [if_neg (by simp)]
  rw [show (((' ' :: name.data) ++ [' '], '\x7b' :: ('\n' ::
    ((joinNL (frames.map (frameBlock "    "))).data ++ ('\n' :: '\x7d' :: []))))).2.tail = '\n' :: ((joinNL (frames.map (frameBlock "    "))).data ++ ('\n' :: '\x7d' :: [])) from rfl]
  rw [show (((' ' :: name.data) ++ [' '], '\x7b' :: ('\n' ::
    ((joinNL (frames.map (frameBlock "    "))).data ++ ('\n' :: '\x7d' :: []))))).1 = (' ' :: name.data) ++ [' '] from rfl]
  rw [splitBlock_blocks (by
    intro b hb
    obtain ⟨f, hf, rfl⟩ := List.mem_map.mp hb
    obtain ⟨hf1, hf2, hfds⟩ := hwf f hf
    refine ⟨[' ', ' ', ' ', ' '] ++ (f.1.data ++ [' ']),
      '\n' :: ((joinNL (f.2.map (declLine ("    " ++ "    ")))).data ++
        ('\n' :: [' ', ' ', ' ', ' '])), ⟨?_, ?_, ?_, ?_⟩, ?_⟩
    · intro hm
      rcases List.mem_append.mp hm with h1 | h1
      · exact absurd h1 (by decide)
      rcases List.mem_append.mp h1 with h2 | h2
      · exact (hf2 _ h2) (by simp)
      · exact absurd (List.mem_singleton.mp h2) (by decide)
    · intro hm
      rcases List.mem_append.mp hm with h1 | h1
      · exact absurd h1 (by decide)
      rcases List.mem_append.mp h1 with h2 | h2
      · exact (hf2 _ h2) (by simp)
      · exact absurd (List.mem_singleton.mp h2) (by decide)
    · intro hm
      rcases List.mem_cons.mp hm with he | h1
      · exact absurd he (by decide)
      rcases List.mem_append.mp h1 with h2 | h2
      · exact brace_not_mem_decl_lines hIND8 hfds (Or.inl rfl) h2
      · rcases List.mem_cons.mp h2 with he | h3
        · exact absurd he (by decide)
        · exact absurd h3 (by decide)
    · intro hm
      rcases List.mem_cons.mp hm with he | h1
      · exact absurd he (by decide)
      rcases List.mem_append.mp h1 with h2 | h2
      · exact brace_not_mem_decl_lines hIND8 hfds (Or.inr rfl) h2
      · rcases List.mem_cons.mp h2 with he | h3
        · exact absurd he (by decide)
        · exact absurd h3 (by decide)
    · show (frameBlock "    " f).data = _
      simp [frameBlock, String.data_append]) []]
  show RuleNode.keyframesRule (strOf (pyStripList ((' ' :: name.data) ++ [' '])))
      (parseBlocksF (('\n' :: ((joinNL (frames.map (frameBlock "    "))).data ++
        ['\n'])).length + 1)
        ('\n' :: ((joinNL (frames.map (frameBlock "    "))).data ++ ['\n']))) ::
    parseRulesF g [] = [RuleNode.keyframesRule name frames]
  rw [parseRulesF_empty]
  rw [show pyStripList ((' ' :: name.data) ++ [' ']) = name.data from by
    have := @pyStripList_sandwich [' '] [' '] name.data (by decide) (by decide) hnamed
    simpa using this]
  rw [strOf_data]
  rw [show parseBlocksF (('\n' :: ((joinNL (frames.map (frameBlock "    "))).data ++
      ['\n'])).length + 1)
      ('\n' :: ((joinNL (frames.map (frameBlock "    "))).data ++ ['\n'])) = frames from by
    refine frames_round hwf (w := ['\n']) (by decide) ?_
    have hge : frames.length ≤ (joinNL (frames.map (frameBlock "    "))).data.length := by
      have := @joinNL_length_ge (frames.map (frameBlock "    "))
        (fun s hs => by
          obtain ⟨f, hf, rfl⟩ := List.mem_map.mp hs
          exact frameBlock_len f)
      simpa using this
    simp only [List.length_cons, List.length_append, List.length_singleton]
    omega]

theorem parseCss_keyframes {name : String} {frames : List Frame}
    (h : ruleWF (.keyframesRule name frames)) :
    parseCss (formatRule (.keyframesRule name frames)) = [.keyframesRule name frames] := by
  obtain ⟨hn1, hn2, hwf⟩ := h
  have hD : (formatRule (.keyframesRule name frames)).data =
      '@' :: 'k' :: 'e' :: 'y' :: 'f' :: 'r' :: 'a' :: 'm' :: 'e' :: 's' :: ' ' ::
        (name.data ++ (' ' :: '\x7b' :: ('\n' ::
          ((joinNL (frames.map (frameBlock "    "))).data ++ ('\n' :: '\x7d' :: []))))) := by
    show ("@keyframes " ++ name ++ " \x7b\n" ++
      joinNL (frames.map (frameBlock "    ")) ++ "\n\x7d").data = _
    simp [String.data_append]
  show parseRulesF ((formatRule (.keyframesRule name frames)).data.length + 1)
    (formatRule (.keyframesRule name frames)).data = [RuleNode.keyframesRule name frames]
  rw [hD]
  exact kf_chain_round hn1 hn2 hwf _

theorem mediaBlock_len (s : String) (ds : List Decl) :
    1 ≤ ("    " ++ format_css_rule s ds ("    " ++ "    ")).data.length := by
  have hd : ("    " ++ format_css_rule s ds ("    " ++ "    ")).data =
      ("    " : String).data ++ (format_css_rule s ds ("    " ++ "    ")).data := by
    simp [String.data_append]
  rw [hd, List.length_append]
  have h4 : ("    " : String).data.length = 4 := rfl
  omega

set_option maxHeartbeats 1000000 in
theorem md_chain_round {q : String} {ps : List (String × List Decl)}
    (hq1 : pyStrip q = q) (hq2 : noCharIn q ['\x7b', '\x7d'])
    (hps : ∀ p ∈ ps, pyStrip p.1 = p.1 ∧ noCharIn p.1 ['\x7b', '\x7d'] ∧ ∀ d ∈ p.2, declWF d)
    (g : Nat) :
    parseRulesF (g + 1) ('@' :: 'm' :: 'e' :: 'd' :: 'i' :: 'a' :: ' ' ::
      (q.data ++ (' ' :: '\x7b' :: ('\n' ::
        ((joinNL (ps.map (fun p => "    " ++ format_css_rule p.1 p.2 ("    " ++ "    ")))).data
          ++ ('\n' :: '\x7d' :: [])))))) =
    [RuleNode.mediaRule q (ps.map (fun p => MediaInner.styleInner p.1 p.2))] := by
  have hqd := trimmedS_data hq1
  simp only [parseRulesF]
  rw [dropWhile_ws_cons_neg (by decide)]
  rw [if_neg (by simp)]
  rw [if_pos (by rfl)]
  rw [ifb_neg (by rfl)]
  rw [ifb_neg (by rfl)]
  rw [ifb_neg (by rfl)]
  rw [if_pos (by rfl)]
  rw [show ('@' :: 'm' :: 'e' :: 'd' :: 'i' :: 'a' :: ' ' ::
    (q.data ++ (' ' :: '\x7b' :: ('\n' ::
      ((joinNL (ps.map (fun p => "    " ++ format_css_rule p.1 p.2 ("    " ++ "    ")))).data
        ++ ('\n' :: '\x7d' :: [])))))).drop 6 =
    ' ' :: (q.data ++ (' ' :: '\x7b' :: ('\n' ::
      ((joinNL (ps.map (fun p => "    " ++ format_css_rule p.1 p.2 ("    " ++ "    ")))).data
        ++ ('\n' :: '\x7d' :: []))))) from rfl]
  have e1 : ' ' :: (q.data ++ (' ' :: '\x7b' :: ('\n' ::
      ((joinNL (ps.map (fun p => "    " ++ format_css_rule p.1 p.2 ("    " ++ "    ")))).data
        ++ ('\n' :: '\x7d' :: []))))) =
      ((' ' :: q.data) ++ [' ']) ++ '\x7b' :: ('\n' ::
        ((joinNL (ps.map (fun p => "    " ++ format_css_rule p.1 p.2 ("    " ++ "    ")))).data
          ++ ('\n' :: '\x7d' :: []))) := by
    simp
  rw [e1]
  rw [spanUntil_hit (by
    intro x hx
    rcases List.mem_append.mp hx with h1 | h1
    · rcases List.mem_cons.mp h1 with rfl | h2
      · decide
      · exact fun e => (hq2 x h2) (by rw [e]; decide)
    · rcases List.mem_singleton.mp h1 with rfl
      decide) _]
  rw [if_neg (by simp)]
  rw [show (((' ' :: q.data) ++ [' '], '\x7b' :: ('\n' ::
    ((joinNL (ps.map (fun p => "    " ++ format_css_rule p.1 p.2 ("    " ++ "    ")))).data
      ++ ('\n' :: '\x7d' :: []))))).2.tail = '\n' ::
        ((joinNL (ps.map (fun p => "    " ++ format_css_rule p.1 p.2 ("    " ++ "    ")))).data
          ++ ('\n' :: '\x7d' :: [])) from rfl]
  rw [show (((' ' :: q.data) ++ [' '], '\x7b' :: ('\n' ::
    ((joinNL (ps.map (fun p => "    " ++ format_css_rule p.1 p.2 ("    " ++ "    ")))).data
      ++ ('\n' :: '\x7d' :: []))))).1 = (' ' :: q.data) ++ [' '] from rfl]
  rw [splitBlock_blocks (by
    intro b hb
    obtain ⟨p, hp, rfl⟩ := List.mem_map.mp hb
    obtain ⟨hs1, hs2, hds⟩ := hps p hp
    obtain ⟨body, hA, hb7, hnb, hpd⟩ := innerBlock_shape hs1 hds
    refine ⟨[' ', ' ', ' ', ' '] ++ (p.1.data ++ [' ']), body, ⟨?_, ?_, hb7, hnb⟩, ?_⟩
    · intro hm
      rcases List.mem_append.mp hm with h1 | h1
      · exact absurd h1 (by decide)
      rcases List.mem_append.mp h1 with h2 | h2
      · exact (hs2 _ h2) (by simp)
      · exact absurd (List.mem_singleton.mp h2) (by decide)
    · intro hm
      rcases List.mem_append.mp hm with h1 | h1
      · exact absurd h1 (by decide)
      rcases List.mem_append.mp h1 with h2 | h2
      · exact (hs2 _ h2) (by simp)
      · exact absurd (List.mem_singleton.mp h2) (by decide)
    · rw [hA]
      simp) []]
  show RuleNode.mediaRule (strOf (pyStripList ((' ' :: q.data) ++ [' '])))
      ((parseBlocksF (('\n' :: ((joinNL (ps.map
          (fun p => "    " ++ format_css_rule p.1 p.2 ("    " ++ "    ")))).data ++
        ['\n'])).length + 1)
        ('\n' :: ((joinNL (ps.map
          (fun p => "    " ++ format_css_rule p.1 p.2 ("    " ++ "    ")))).data ++
            ['\n']))).map (fun b => MediaInner.styleInner b.1 b.2)) ::
    parseRulesF g [] =
    [RuleNode.mediaRule q (ps.map (fun p => MediaInner.styleInner p.1 p.2))]
  rw [parseRulesF_empty]
  rw [show pyStripList ((' ' :: q.data) ++ [' ']) = q.data from by
    have := @pyStripList_sandwich [' '] [' '] q.data (by decide) (by decide) hqd
    simpa using this]
  rw [strOf_data]
  rw [show parseBlocksF (('\n' :: ((joinNL (ps.map
      (fun p => "    " ++ format_css_rule p.1 p.2 ("    " ++ "    ")))).data ++
        ['\n'])).length + 1)
      ('\n' :: ((joinNL (ps.map
        (fun p => "    " ++ format_css_rule p.1 p.2 ("    " ++ "    ")))).data ++ ['\n'])) =
      ps from by
    refine innersPairs_round hps (w := ['\n']) (by decide) ?_
    have hge : ps.length ≤ (joinNL (ps.map
        (fun p => "    " ++ format_css_rule p.1 p.2 ("    " ++ "    ")))).data.length := by
      have := @joinNL_length_ge (ps.map
          (fun p => "    " ++ format_css_rule p.1 p.2 ("    " ++ "    ")))
        (fun s hs => by
          obtain ⟨p, hp, rfl⟩ := List.mem_map.mp hs
          exact mediaBlock_len p.1 p.2)
      simpa using this
    simp only [List.length_cons, List.length_append, List.length_singleton]
    omega]

theorem parseCss_media {q : String} {inner : List MediaInner}
    (h : ruleWF (.mediaRule q inner)) :
    parseCss (formatRule (.mediaRule q inner)) = [.mediaRule q inner] := by
  obtain ⟨hq1, hq2, hin⟩ := h
  obtain ⟨ps, hrest, hps⟩ := inner_pairs hin
  subst hrest
  have hD : (formatRule (.mediaRule q (ps.map (fun p => MediaInner.styleInner p.1 p.2)))).data =
      '@' :: 'm' :: 'e' :: 'd' :: 'i' :: 'a' :: ' ' :: (q.data ++ (' ' :: '\x7b' :: ('\n' ::
        ((joinNL (ps.map (fun p => "    " ++ format_css_rule p.1 p.2 ("    " ++ "    ")))).data
          ++ ('\n' :: '\x7d' :: []))))) := by
    show ("@media " ++ q ++ " \x7b\n" ++
      joinNL ((ps.map (fun p => MediaInner.styleInner p.1 p.2)).filterMap (fun r =>
        match r with
        | MediaInner.styleInner sel ds =>
            some ("    " ++ format_css_rule sel ds ("    " ++ "    "))
        | MediaInner.otherInner _ => none)) ++ "\n\x7d").data = _
    rw [filterMap_style_map]
    simp [String.data_append]
  show parseRulesF
      ((formatRule (.mediaRule q (ps.map (fun p => MediaInner.styleInner p.1 p.2)))).data.length
        + 1)
      (formatRule (.mediaRule q (ps.map (fun p => MediaInner.styleInner p.1 p.2)))).data =
    [RuleNode.mediaRule q (ps.map (fun p => MediaInner.styleInner p.1 p.2))]
  rw [hD]
  exact md_chain_round hq1 hq2 hps _

set_option maxHeartbeats 1000000 in
theorem other_chain_round {t : String} {u : List Char}
    (hcat : t.data = '@' :: (u ++ [';'])) (hu : ';' ∉ u)
    (hpi : ("@import".data).isPrefixOf t.data = false)
    (hpc : ("@charset".data).isPrefixOf t.data = false)
    (hpk : ("@keyframes".data).isPrefixOf t.data = false)
    (hpm : ("@media".data).isPrefixOf t.data = false)
    (g : Nat) :
    parseRulesF (g + 1) ('@' :: (u ++ [';'])) = [RuleNode.otherRule t] := by
  simp only [parseRulesF]
  rw [dropWhile_ws_cons_neg (by decide)]
  rw [if_neg (by simp)]
  rw [if_pos (by rfl)]
  rw [ifb_neg (by rw [← hcat]; exact hpi)]
  rw [ifb_neg (by rw [← hcat]; exact hpc)]
  rw [ifb_neg (by rw [← hcat]; exact hpk)]
  rw [ifb_neg (by rw [← hcat]; exact hpm)]
  have e1 : '@' :: (u ++ [';']) = ('@' :: u) ++ (';' :: []) := by simp
  rw [e1]
  rw [spanUntil_hit (by
    intro x hx
    rcases List.mem_cons.mp hx with rfl | h1
    · decide
    · exact fun e => hu (by rw [← e]; exact h1)) []]
  rw [if_neg (by simp)]
  show RuleNode.otherRule (strOf (('@' :: u) ++ [';'])) ::
    parseRulesF g (([] : List Char)) = [RuleNode.otherRule t]
  rw [parseRulesF_empty]
  rw [show ('@' :: u) ++ [';'] = t.data from by rw [hcat]; simp]
  rw [strOf_data]

theorem parseCss_other {t : String} (h : ruleWF (.otherRule t)) :
    parseCss (formatRule (.otherRule t)) = [.otherRule t] := by
  obtain ⟨hhead, htrim, hch, hpi, hpk, hpm, hlast, hsemi⟩ := h
  have hpc : ("@charset".data).isPrefixOf t.data = false := by
    cases hb : ("@charset".data).isPrefixOf t.data
    · rfl
    · exfalso
      have hpre : "@charset".data <+: t.data := List.isPrefixOf_iff_prefix.mp hb
      have hinf : "@charset".data <:+: t.data := hpre.isInfix
      have hcc : strContains t "@charset" = true := decide_eq_true hinf
      rw [hch] at hcc
      exact Bool.false_ne_true hcc
  have hfmt : formatRule (.otherRule t) = t := by
    show (if strContains t "@charset" = true then "" else t) = t
    exact ifb_neg hch "" t
  rcases List.eq_nil_or_concat t.data with hnil | ⟨u, y, hcat0⟩
  · rw [hnil] at hhead
    simp at hhead
  · simp only [List.concat_eq_append] at hcat0
    have hy : y = ';' := by
      have h2 := hlast
      rw [hcat0, List.getLast?_concat] at h2
      exact Option.some_inj.mp h2
    subst hy
    have hu : ';' ∉ u := by
      have h2 := hsemi
      rw [hcat0, List.dropLast_concat] at h2
      exact h2
    cases u with
    | nil =>
      rw [hcat0] at hhead
      exact absurd (Option.some_inj.mp hhead) (by decide)
    | cons c0 u' =>
      have hc0 : c0 = '@' := by
        rw [hcat0] at hhead
        exact Option.some_inj.mp hhead
      subst hc0
      have hcat : t.data = '@' :: (u' ++ [';']) := by rw [hcat0]; rfl
      have hu' : ';' ∉ u' := fun hm => hu (List.mem_cons_of_mem _ hm)
      show parseRulesF ((formatRule (.otherRule t)).data.length + 1)
        (formatRule (.otherRule t)).data = [RuleNode.otherRule t]
      rw [hfmt, hcat]
      exact other_chain_round hcat hu' hpi hpc hpk hpm _

/-- Claim C8: formatting round-trip.  For every single well-formed rule
`r`, parsing the text produced by `formatRule r` yields exactly the
one-element list `[r]` — the same variant with the same selector, name,
query and declaration content — and therefore re-formatting that parse
reproduces the formatted text: `format(parse(format(r))) = format(r)`. -/
theorem C8_format_parse_roundtrip (r : RuleNode) (h : ruleWF r) :
    parseCss (formatRule r) = [r] ∧
    joinNL ((parseCss (formatRule r)).map formatRule) = formatRule r := by
  have hp : parseCss (formatRule r) = [r] := by
    cases r with
    | styleRule sel ds => exact parseCss_style h
    | importRule href => exact parseCss_import h
    | keyframesRule name frames => exact parseCss_keyframes h
    | mediaRule q inner => exact parseCss_media h
    | otherRule t => exact parseCss_other h
  refine ⟨hp, ?_⟩
  rw [hp]
  show joinNL [formatRule r] = formatRule r
  rfl

set_option maxRecDepth 10000 in
theorem C8_format_parse_roundtrip_witness :
    (parseCss (formatRule (.styleRule ".a" [("color", "red")])) =
        [.styleRule ".a" [("color", "red")]] ∧
      joinNL ((parseCss (formatRule (.styleRule ".a" [("color", "red")]))).map formatRule) =
        formatRule (.styleRule ".a" [("color", "red")])) ∧
    (parseCss (formatRule (.importRule "x.css")) = [.importRule "x.css"] ∧
      joinNL ((parseCss (formatRule (.importRule "x.css"))).map formatRule) =
        formatRule (.importRule "x.css")) ∧
    (parseCss (formatRule (.keyframesRule "spin" [("from", [("opacity", "0")])])) =
        [.keyframesRule "spin" [("from", [("opacity", "0")])]] ∧
      joinNL ((parseCss (formatRule
          (.keyframesRule "spin" [("from", [("opacity", "0")])]))).map formatRule) =
        formatRule (.keyframesRule "spin" [("from", [("opacity", "0")])])) ∧
    (parseCss (formatRule (.mediaRule "screen" [.styleInner ".a" [("color", "red")]])) =
        [.mediaRule "screen" [.styleInner ".a" [("color", "red")]]] ∧
      joinNL ((parseCss (formatRule
          (.mediaRule "screen" [.styleInner ".a" [("color", "red")]]))).map formatRule) =
        formatRule (.mediaRule "screen" [.styleInner ".a" [("color", "red")]])) ∧
    (parseCss (formatRule (.otherRule "@font-face x;")) = [.otherRule "@font-face x;"] ∧
      joinNL ((parseCss (formatRule (.otherRule "@font-face x;"))).map formatRule) =
        formatRule (.otherRule "@font-face x;")) :=
  ⟨C8_format_parse_roundtrip (.styleRule ".a" [("color", "red")]) (by decide),
   C8_format_parse_roundtrip (.importRule "x.css") (by decide),
   C8_format_parse_roundtrip (.keyframesRule "spin" [("from", [("opacity", "0")])]) (by decide),
   C8_format_parse_roundtrip (.mediaRule "screen" [.styleInner ".a" [("color", "red")]])
     (by decide),
   C8_format_parse_roundtrip (.otherRule "@font-face x;") (by decide)⟩
